import Mathlib

/-! Local trust source of the reputation service.

Shallow embedding of `cmd/neofs-node/reputation.go`: `localTrustStorage.InitIterator`
and `localTrustIterator.Iterate`.

Effects are explicit state passing over a world `ω`: a trust handler and the
network map source are functions that take the world and give it back.
The packages `reputation`, `truststorage` and `netmapcore` are imported by the
file but are not part of the sources at hand; what `Iterate` needs of them is
either a parameter or a definition taken from the specification, marked as such.
-/

namespace Reputation

/-! ## Primitives -/

/-- A Go byte slice; `bytes.Equal` is equality of the lists. -/
abbrev Bytes := List Nat

/-- Go `error` values that are not nil. `ErrNoPositiveTrust` is the sentinel of
package `truststorage`; `wrap` is an error whose `Unwrap` gives `cause`. -/
inductive Error where
  | ErrNoPositiveTrust
  | other (code : Nat)
  | wrap (msg : Nat) (cause : Error)
  deriving DecidableEq, Repr

/-- The chain walk of `errors.Is` on an error that is not nil: the error itself,
then what it unwraps to. -/
def Error.Is : Error → Error → Bool
  | .wrap msg cause, target => decide (Error.wrap msg cause = target) || Error.Is cause target
  | err, target => decide (err = target)

/-- Go `errors.Is(err, target)` for a target that is not nil; a nil `err` matches nothing. -/
def errorsIs : Option Error → Error → Bool
  | none, _ => false
  | some err, target => err.Is target

/-- Modelled from the spec: `reputation.TrustValue` (package `reputation` is not among
the sources). The specification makes it an exact rational scalar. -/
abbrev TrustValue := ℚ

/-- Modelled from the spec: the constant `reputation.TrustOne`. -/
def TrustOne : TrustValue := 1

/-- Modelled from the spec: `reputation.TrustValueFromInt`, the scalar of a Go `int`. -/
def TrustValueFromInt (v : Int) : TrustValue := (v : ℚ)

/-- Modelled from the spec: `TrustValue.Div`, exact division. Division by the zero
scalar is total here (it gives zero); `Iterate` never hands such a quotient to the handler. -/
def TrustValue.Div (t t2 : TrustValue) : TrustValue := t / t2

/-- Modelled from the spec: `reputation.PeerID`, an opaque byte identity compared byte by byte. -/
structure PeerID where
  Bytes : Bytes
  deriving DecidableEq, Repr

/-- Modelled from the spec: `reputation.PeerIDFromBytes`. -/
def PeerIDFromBytes (data : Bytes) : PeerID := { Bytes := data }

/-- Record `reputation.Trust` after `SetPeer` and `SetValue`. -/
structure Trust where
  peer : PeerID
  value : TrustValue
  deriving DecidableEq, Repr

/-- A `reputation.TrustHandler`: a callback that may fail and may change the world. -/
abbrev TrustHandler (ω : Type) := Trust → ω → Option Error × ω

/-- An entry of `nm.Nodes`; only `PublicKey()` is read by `Iterate`. -/
structure NodeInfo where
  PublicKey : Bytes
  deriving DecidableEq, Repr

/-- The network map of one epoch; only `Nodes` is read by `Iterate`. -/
structure Netmap where
  Nodes : List NodeInfo
  deriving DecidableEq, Repr

/-- Interface `netmapcore.Source`, method `GetNetMapByEpoch`: a network map or an error.
The source runs in the world too (the node uses a caching source). -/
abbrev Source (ω : Type) := Nat → ω → Except Error Netmap × ω

/-- Parameter standing for `truststorage.EpochTrustValueStorage`, seen through its
method `Iterate(h)`: all that foreign code can do with the handler is call it on a
record and go on from the handler's answer, or return. -/
inductive EpochTrustValueStorage where
  | ret (err : Option Error)
  | call (t : Trust) (next : Option Error → EpochTrustValueStorage)

/-- Running `epochStorage.Iterate(h)` against a handler. -/
def EpochTrustValueStorage.Iterate {ω : Type} :
    EpochTrustValueStorage → TrustHandler ω → ω → Option Error × ω
  | .ret err, _, w => (err, w)
  | .call t next, h, w =>
      match h t w with
      | (r, w1) => (next r).Iterate h w1

/-- Modelled from the spec: handing the records of an accumulator to the handler one by
one; the first handler error stops the iteration and is returned. -/
def EpochTrustValueStorage.handOut : List Trust → EpochTrustValueStorage
  | [] => .ret none
  | t :: rest => .call t (fun r =>
      match r with
      | some err => .ret (some err)
      | none => EpochTrustValueStorage.handOut rest)

/-- Modelled from the spec: the accumulator of an epoch holding the records `rs`.
Its iteration reports NoPositiveTrust when there is no record, and otherwise hands
every record to the handler, stopping at the first handler error and returning it. -/
def EpochTrustValueStorage.ofRecords : List Trust → EpochTrustValueStorage
  | [] => .ret (some Error.ErrNoPositiveTrust)
  | t :: rest => EpochTrustValueStorage.handOut (t :: rest)

/-- Parameter standing for `truststorage.Storage`, seen through `DataForEpoch`: the Go
pair of an accumulator pointer (possibly nil) and an error (possibly nil). -/
structure Storage where
  DataForEpoch : Nat → Option EpochTrustValueStorage × Option Error

/-- The reporting context `trustcontroller.Context`; `Epoch()` is what is read. -/
structure Context where
  Epoch : Nat
  deriving DecidableEq, Repr

/-- Struct `localTrustStorage` (the logger is left out: it has no part in the results). -/
structure localTrustStorage (ω : Type) where
  storage : Storage
  nmSrc : Source ω
  localKey : Bytes

/-- Struct `localTrustIterator`; `epochStorage` is a pointer that may be nil. -/
structure localTrustIterator (ω : Type) where
  ctx : Context
  storage : localTrustStorage ω
  epochStorage : Option EpochTrustValueStorage

/-! ## Operations -/

/-- Method `localTrustStorage.InitIterator` (lines 37-48): the Go pair of an iterator
pointer and an error. -/
def localTrustStorage.InitIterator {ω : Type} (s : localTrustStorage ω) (ctx : Context) :
    Option (localTrustIterator ω) × Option Error :=
  match s.storage.DataForEpoch ctx.Epoch with
  | (epochStorage, err) =>
      if err ≠ none ∧ !(errorsIs err Error.ErrNoPositiveTrust) then
        (none, err)
      else
        (some { ctx := ctx, storage := s, epochStorage := epochStorage }, none)

/-- The first loop of `Iterate` (lines 64-70), from position `i` on: every position
whose key equals the local key overwrites `localIndex`, so the last one stays. -/
def findLocalIndex (localKey : Bytes) : List NodeInfo → Nat → Int → Int
  | [], _, localIndex => localIndex
  | nd :: rest, i, localIndex =>
      findLocalIndex localKey rest (i + 1) (if nd.PublicKey = localKey then (i : Int) else localIndex)

/-- The second loop of `Iterate` (lines 80-92), from position `i` on: the position
`localIndex` is skipped, every other entry goes to the handler with value `p`, and
the first handler error ends the loop and is returned. -/
def emitLoop {ω : Type} (h : TrustHandler ω) (localIndex : Int) (p : TrustValue) :
    List NodeInfo → Nat → ω → Option Error × ω
  | [], _, w => (none, w)
  | nd :: rest, i, w =>
      if (i : Int) = localIndex then
        emitLoop h localIndex p rest (i + 1) w
      else
        match h { peer := PeerIDFromBytes nd.PublicKey, value := p } w with
        | (some err, w1) => (some err, w1)
        | (none, w1) => emitLoop h localIndex p rest (i + 1) w1

/-- The divisor `ln` of `Iterate` (lines 72-75): the roster size, less one when the
local node was found. -/
def fallbackDivisor (localIndex : Int) (nodes : List NodeInfo) : Int :=
  if localIndex ≥ 0 ∧ (nodes.length : Int) > 0 then (nodes.length : Int) - 1 else (nodes.length : Int)

/-- Lines 58-94 of `Iterate`: the network map of the epoch is fetched, the local node
is looked up, the uniform share is computed and handed out. -/
def localTrustIterator.uniformFallback {ω : Type} (it : localTrustIterator ω)
    (h : TrustHandler ω) (w : ω) : Option Error × ω :=
  match it.storage.nmSrc it.ctx.Epoch w with
  | (Except.error err, w1) => (some err, w1)
  | (Except.ok nm, w1) =>
      let localIndex := findLocalIndex it.storage.localKey nm.Nodes 0 (-1)
      let ln := fallbackDivisor localIndex nm.Nodes
      let p := TrustOne.Div (TrustValueFromInt ln)
      emitLoop h localIndex p nm.Nodes 0 w1

/-- Method `localTrustIterator.Iterate` (lines 50-95). -/
def localTrustIterator.Iterate {ω : Type} (it : localTrustIterator ω)
    (h : TrustHandler ω) (w : ω) : Option Error × ω :=
  match it.epochStorage with
  | some es =>
      match es.Iterate h w with
      | (err, w1) =>
          if !(errorsIs err Error.ErrNoPositiveTrust) then (err, w1)
          else it.uniformFallback h w1
  | none => it.uniformFallback h w

/-- The records the second loop of `Iterate` hands out when no handler call fails:
the roster from position `i` on, without the position `localIndex`, each entry with
the value `p`. -/
def fallbackRecords (localIndex : Int) (p : TrustValue) : List NodeInfo → Nat → List Trust
  | [], _ => []
  | nd :: rest, i =>
      if (i : Int) = localIndex then
        fallbackRecords localIndex p rest (i + 1)
      else
        { peer := PeerIDFromBytes nd.PublicKey, value := p } :: fallbackRecords localIndex p rest (i + 1)

/-! ## Observing a run -/

/-- A world with a journal: every handler call with the handler's answer, and every
epoch asked of the network map source, in the order they happened. -/
structure Observed (ω : Type) where
  world : ω
  calls : List (Trust × Option Error)
  queries : List Nat

/-- The handler `h`, writing each call into the journal. -/
def observeHandler {ω : Type} (h : TrustHandler ω) : TrustHandler (Observed ω) :=
  fun t o =>
    match h t o.world with
    | (r, w1) => (r, { world := w1, calls := o.calls ++ [(t, r)], queries := o.queries })

/-- The source `src`, writing each query into the journal. -/
def observeSource {ω : Type} (src : Source ω) : Source (Observed ω) :=
  fun epoch o =>
    match src epoch o.world with
    | (r, w1) => (r, { world := w1, calls := o.calls, queries := o.queries ++ [epoch] })

/-- The iterator `it` with its network map source observed. -/
def localTrustIterator.observed {ω : Type} (it : localTrustIterator ω) :
    localTrustIterator (Observed ω) :=
  { ctx := it.ctx
    storage := { storage := it.storage.storage
                 nmSrc := observeSource it.storage.nmSrc
                 localKey := it.storage.localKey }
    epochStorage := it.epochStorage }

/-- One observed run of `it.Iterate(h)` from the world `w` with an empty journal. -/
def runIterate {ω : Type} (it : localTrustIterator ω) (h : TrustHandler ω) (w : ω) :
    Option Error × Observed ω :=
  it.observed.Iterate (observeHandler h) { world := w, calls := [], queries := [] }

/-- The accumulator step alone, observed the same way (lines 51-52 of `Iterate`);
with a nil accumulator nothing happens. -/
def runAccumulator {ω : Type} (it : localTrustIterator ω) (h : TrustHandler ω) (w : ω) :
    Option Error × Observed ω :=
  match it.epochStorage with
  | some es => es.Iterate (observeHandler h) { world := w, calls := [], queries := [] }
  | none => (none, { world := w, calls := [], queries := [] })

/-- The epoch has no recorded trust: the accumulator is absent, or its iteration
reports NoPositiveTrust without a record. -/
def NoRecordedTrust {ω : Type} (it : localTrustIterator ω) : Prop :=
  match it.epochStorage with
  | none => True
  | some (.ret err) => errorsIs err Error.ErrNoPositiveTrust = true
  | some (.call _ _) => False

/-- The handler never fails. -/
def NeverFails {ω : Type} (h : TrustHandler ω) : Prop := ∀ t w, (h t w).1 = none

/-- The source answers the epoch with the network map `nm`, whatever the world. -/
def SourceGives {ω : Type} (it : localTrustIterator ω) (nm : Netmap) : Prop :=
  ∀ w, (it.storage.nmSrc it.ctx.Epoch w).1 = Except.ok nm

/-- The source fails for the epoch with `err`, whatever the world. -/
def SourceFails {ω : Type} (it : localTrustIterator ω) (err : Error) : Prop :=
  ∀ w, (it.storage.nmSrc it.ctx.Epoch w).1 = Except.error err

/-! ## Concrete data for the scenarios -/

/-- A source that knows one network map for every epoch and keeps no state. -/
def constSource {ω : Type} (nm : Netmap) : Source ω := fun _ w => (Except.ok nm, w)

/-- A source that fails with `err` for every epoch. -/
def failingSource {ω : Type} (err : Error) : Source ω := fun _ w => (Except.error err, w)

/-- A storage with no accumulator for any epoch, as `DataForEpoch` reports it. -/
def emptyStorage : Storage := { DataForEpoch := fun _ => (none, some Error.ErrNoPositiveTrust) }

/-- A handler that accepts everything; the world is a counter of its calls. -/
def acceptAll : TrustHandler Nat := fun _ n => (none, n + 1)

/-- A handler that fails with `err` on its call number `k` (counted from one); the
world is the number of calls made so far. -/
def failOnCall (k : Nat) (err : Error) : TrustHandler Nat :=
  fun _ n => (if n + 1 = k then some err else none, n + 1)

/-- An iterator for `epoch` over the roster `keys`, with the accumulator `es`. -/
def mkIterator (epoch : Nat) (localKey : Bytes) (keys : List Bytes)
    (es : Option EpochTrustValueStorage) : localTrustIterator Nat :=
  { ctx := { Epoch := epoch }
    storage := { storage := emptyStorage
                 nmSrc := constSource { Nodes := keys.map (fun k => { PublicKey := k }) }
                 localKey := localKey }
    epochStorage := es }

/-- An iterator for epoch 10 without accumulator whose network map source fails. -/
def brokenSourceIterator : localTrustIterator Nat :=
  { ctx := { Epoch := 10 }
    storage := { storage := emptyStorage
                 nmSrc := failingSource (Error.other 3)
                 localKey := [9] }
    epochStorage := none }

/-- A local trust storage over `emptyStorage` with a network map source that knows no map. -/
def bareStorage : localTrustStorage Nat :=
  { storage := emptyStorage
    nmSrc := failingSource (Error.other 3)
    localKey := [9] }

/-! ## The new-epoch trigger -/

/-- Subtraction of Go `uint64` values: it wraps around at zero. -/
def uint64Sub (a b : Nat) : Nat := (a + 2 ^ 64 - b % 2 ^ 64) % 2 ^ 64

/-- Event `netmap.NewEpoch`; `EpochNumber()` is what the handler reads. -/
structure NewEpoch where
  EpochNumber : Nat
  deriving DecidableEq, Repr

/-- Parameter `trustcontroller.ReportPrm` after `SetEpoch`. -/
structure ReportPrm where
  epoch : Nat
  deriving DecidableEq, Repr

/-- The handler that `initReputationService` registers for new-epoch events (lines 142-150),
as the list of the reports it starts (one `go ...Report(reportPrm)` per event). -/
def newEpochHandler (ev : NewEpoch) : List ReportPrm :=
  [{ epoch := uint64Sub ev.EpochNumber 1 }]

/-! ## The reporting sink and the controller -/

/-- An entry written by `localTrustLogger.Write` through `log.Info`: the fields `epoch`,
`peer` (the hex text of the peer bytes, kept here as the bytes) and `value`. -/
structure LogEntry where
  epoch : Nat
  peer : Bytes
  value : TrustValue
  deriving DecidableEq, Repr

/-- The node logger seen through `Info`: writing an entry changes the world. -/
abbrev Logger (ω : Type) := LogEntry → ω → ω

/-- Struct `localTrustLogger` (lines 104-108). -/
structure localTrustLogger (ω : Type) where
  ctx : Context
  log : Logger ω

/-- Method `localTrustStorage.InitWriter` (lines 97-102); `log` is the logger field of the
storage, which the struct above leaves out. -/
def localTrustStorage.InitWriter {ω : Type} (_s : localTrustStorage ω) (log : Logger ω)
    (ctx : Context) : Option (localTrustLogger ω) × Option Error :=
  (some { ctx := ctx, log := log }, none)

/-- Method `localTrustLogger.Write` (lines 110-118): one log entry, no error. -/
def localTrustLogger.Write {ω : Type} (l : localTrustLogger ω) : TrustHandler ω :=
  fun t w => (none, l.log { epoch := l.ctx.Epoch, peer := t.peer.Bytes, value := t.value } w)

/-- Method `localTrustLogger.Close` (lines 120-122): nothing happens, no error. -/
def localTrustLogger.Close {ω : Type} (_l : localTrustLogger ω) : ω → Option Error × ω :=
  fun w => (none, w)

/-- Interface `trustcontroller.Writer`: `Write` and `Close`. -/
structure Writer (ω : Type) where
  Write : TrustHandler ω
  Close : ω → Option Error × ω

/-- A `localTrustLogger` as a `trustcontroller.Writer`. -/
def localTrustLogger.toWriter {ω : Type} (l : localTrustLogger ω) : Writer ω :=
  { Write := l.Write, Close := l.Close }

/-- Interface `trustcontroller.WriterProvider`, method `InitWriter`: the Go pair of a writer
(possibly nil) and an error (possibly nil). -/
abbrev Target (ω : Type) := Context → Option (Writer ω) × Option Error

/-- The local trust storage as the target of the controller, the way
`initReputationService` wires it (lines 137-140). -/
def localTrustStorage.asTarget {ω : Type} (s : localTrustStorage ω) (log : Logger ω) : Target ω :=
  fun ctx =>
    match s.InitWriter log ctx with
    | (l, err) => (l.map localTrustLogger.toWriter, err)

/-- Modelled from the spec: `Report` of the trust controller (package `trustcontroller` is
not among the sources). The iterator is initialised on the source, then the writer on the
target; a failure of either ends the run with that error. Then `Iterate(writer.Write)` runs
and after it, whatever its result, `writer.Close()`. The error of `Iterate` is the one
surfaced; the error of `Close` is surfaced only when `Iterate` gave none. -/
def Report {ω : Type} (source : localTrustStorage ω) (target : Target ω) (epoch : Nat)
    (w : ω) : Option Error × ω :=
  match source.InitIterator { Epoch := epoch } with
  | (some it, none) =>
      match target { Epoch := epoch } with
      | (some wr, none) =>
          match it.Iterate wr.Write w with
          | (iterErr, w1) =>
              match wr.Close w1 with
              | (closeErr, w2) => (if iterErr.isSome then iterErr else closeErr, w2)
      | (_, err) => (err, w)
  | (_, err) => (err, w)

/-- What a sink sees: a `Write` with its answer, or a `Close` with its answer. -/
inductive SinkEvent where
  | write (t : Trust) (r : Option Error)
  | close (r : Option Error)
  deriving DecidableEq, Repr

/-- The event is a `Write`. -/
def SinkEvent.isWrite : SinkEvent → Bool
  | .write _ _ => true
  | .close _ => false

/-- A world with the journal of the sink. -/
structure Sink (ω : Type) where
  world : ω
  events : List SinkEvent

/-- The writer `wr`, writing every `Write` and every `Close` into the journal. -/
def observeWriter {ω : Type} (wr : Writer ω) : Writer (Sink ω) :=
  { Write := fun t s =>
      match wr.Write t s.world with
      | (r, w1) => (r, { world := w1, events := s.events ++ [SinkEvent.write t r] })
    Close := fun s =>
      match wr.Close s.world with
      | (r, w1) => (r, { world := w1, events := s.events ++ [SinkEvent.close r] }) }

/-- The source `src` over a world with a sink journal, which it leaves alone. -/
def sinkSource {ω : Type} (src : Source ω) : Source (Sink ω) :=
  fun epoch s =>
    match src epoch s.world with
    | (r, w1) => (r, { world := w1, events := s.events })

/-- The storage `s` over a world with a sink journal. -/
def localTrustStorage.overSink {ω : Type} (s : localTrustStorage ω) :
    localTrustStorage (Sink ω) :=
  { storage := s.storage, nmSrc := sinkSource s.nmSrc, localKey := s.localKey }

/-- The iterator `it` over a world with a sink journal. -/
def localTrustIterator.overSink {ω : Type} (it : localTrustIterator ω) :
    localTrustIterator (Sink ω) :=
  { ctx := it.ctx, storage := it.storage.overSink, epochStorage := it.epochStorage }

/-- The target `target` with every writer it gives observed. -/
def observeTarget {ω : Type} (target : Target ω) : Target (Sink ω) :=
  fun ctx =>
    match target ctx with
    | (wr, err) => (wr.map observeWriter, err)

/-- One observed run of `Report(epoch)` from the world `w` with an empty journal. -/
def runReport {ω : Type} (source : localTrustStorage ω) (target : Target ω) (epoch : Nat)
    (w : ω) : Option Error × Sink ω :=
  Report source.overSink (observeTarget target) epoch { world := w, events := [] }

/-- A logger that keeps the entries in a list. -/
def listLogger : Logger (List LogEntry) := fun e w => w ++ [e]

/-- A local trust storage for scenario A over a world that is a list of log entries. -/
def scenarioStorage : localTrustStorage (List LogEntry) :=
  { storage := emptyStorage
    nmSrc := constSource { Nodes := [[1], [9], [2], [3]].map (fun k => { PublicKey := k }) }
    localKey := [9] }

/-- The iterator that `scenarioStorage.InitIterator` gives for epoch 10. -/
def scenarioIterator : localTrustIterator (List LogEntry) :=
  { ctx := { Epoch := 10 }, storage := scenarioStorage, epochStorage := none }

/-- The writer that `scenarioStorage.InitWriter` gives for epoch 10 with the list logger. -/
def scenarioWriter : Writer (List LogEntry) :=
  localTrustLogger.toWriter { ctx := { Epoch := 10 }, log := listLogger }

end Reputation

/-! # Session token verifiers (`services/public/object/token.go`) -/

namespace ObjectService

/-- Errors of the token checks: the three constants of lines 35-39 and any other error. -/
inductive TokenError where
  | errCreatedAfterExpiration
  | errTokenExpired
  | errForbiddenSpawn
  | other (code : Nat)
  deriving DecidableEq, Repr

/-- A `service.SessionToken`, with the two epochs the epoch verifier reads; `payload`
stands for everything else in the token. -/
structure SessionToken where
  CreationEpoch : Nat
  ExpirationEpoch : Nat
  payload : Nat
  deriving DecidableEq, Repr

/-- Interface `sessionTokenVerifier`, method `verifySessionToken`: a check that may fail and
may change the world. -/
abbrev sessionTokenVerifier (ω : Type) := SessionToken → ω → Option TokenError × ω

/-- Struct `complexTokenVerifier`: a slice of verifiers, any of which may be nil. -/
structure complexTokenVerifier (ω : Type) where
  verifiers : List (Option (sessionTokenVerifier ω))

/-- The loop of `complexTokenVerifier.verifySessionToken` (lines 76-84) over the rest of the
slice: a nil entry is skipped, the first error is returned. -/
def verifyEach {ω : Type} (token : SessionToken) :
    List (Option (sessionTokenVerifier ω)) → ω → Option TokenError × ω
  | [], w => (none, w)
  | none :: rest, w => verifyEach token rest w
  | some v :: rest, w =>
      match v token w with
      | (some err, w1) => (some err, w1)
      | (none, w1) => verifyEach token rest w1

/-- Method `complexTokenVerifier.verifySessionToken` (lines 75-85). -/
def complexTokenVerifier.verifySessionToken {ω : Type} (s : complexTokenVerifier ω)
    (token : SessionToken) (w : ω) : Option TokenError × ω :=
  verifyEach token s.verifiers w

/-- Interface `EpochReceiver`: `Epoch()` gives the current epoch. -/
structure EpochReceiver where
  Epoch : Nat
  deriving DecidableEq, Repr

/-- Struct `tokenEpochsVerifier`. -/
structure tokenEpochsVerifier where
  epochRecv : EpochReceiver
  deriving DecidableEq, Repr

/-- Method `tokenEpochsVerifier.verifySessionToken` (lines 99-107); the epochs are `uint64`
values and are only compared. -/
def tokenEpochsVerifier.verifySessionToken (s : tokenEpochsVerifier) (token : SessionToken) :
    Option TokenError :=
  if token.CreationEpoch > token.ExpirationEpoch then
    some TokenError.errCreatedAfterExpiration
  else if s.epochRecv.Epoch > token.ExpirationEpoch then
    some TokenError.errTokenExpired
  else
    none

/-- The positions of the entries that are not nil, counted from `i`. -/
def nonNilFrom {α : Type} : Nat → List (Option α) → List Nat
  | _, [] => []
  | i, none :: rest => nonNilFrom (i + 1) rest
  | i, some _ :: rest => i :: nonNilFrom (i + 1) rest

/-- The verifiers with every call written into a journal, as the position of the verifier
in the slice (counted from `i`) and its answer. -/
def observeVerifiers {ω : Type} :
    Nat → List (Option (sessionTokenVerifier ω)) →
      List (Option (sessionTokenVerifier (ω × List (Nat × Option TokenError))))
  | _, [] => []
  | i, none :: rest => none :: observeVerifiers (i + 1) rest
  | i, some v :: rest =>
      some (fun token s =>
        match v token s.1 with
        | (r, w1) => (r, (w1, s.2 ++ [(i, r)]))) :: observeVerifiers (i + 1) rest

/-- One observed run of the complex verifier from the world `w` with an empty journal. -/
def runVerify {ω : Type} (s : complexTokenVerifier ω) (token : SessionToken) (w : ω) :
    Option TokenError × (ω × List (Nat × Option TokenError)) :=
  complexTokenVerifier.verifySessionToken { verifiers := observeVerifiers 0 s.verifiers } token (w, [])

/-- A journal `cs` with result `r` is a fail-fast pass over the positions `ps`: the
verifiers are called in order, all accept but possibly the last, and the rejection of the
last one is the result. -/
inductive Pass : List Nat → List (Nat × Option TokenError) → Option TokenError → Prop
  | done : Pass [] [] none
  | step {i : Nat} {ps : List Nat} {cs : List (Nat × Option TokenError)} {r : Option TokenError} :
      Pass ps cs r → Pass (i :: ps) ((i, none) :: cs) r
  | stop {i : Nat} {ps : List Nat} {e : TokenError} : Pass (i :: ps) [(i, some e)] (some e)

/-- A check that does not look at the world, as a verifier. -/
def pureVerifier {ω : Type} (g : SessionToken → Option TokenError) : sessionTokenVerifier ω :=
  fun token w => (g token, w)

/-- Verifiers for the scenarios: nil, one that accepts, nil, one that rejects with error 1,
one that rejects with error 2. -/
def sampleVerifiers : complexTokenVerifier Unit :=
  { verifiers := [none, some (pureVerifier (fun _ => none)), none,
      some (pureVerifier (fun _ => some (TokenError.other 1))),
      some (pureVerifier (fun _ => some (TokenError.other 2)))] }

/-- A token for the scenarios: created in epoch 1, expiring in epoch 2. -/
def sampleToken : SessionToken := { CreationEpoch := 1, ExpirationEpoch := 2, payload := 0 }

/-- The epoch verifier as a `sessionTokenVerifier`. -/
def tokenEpochsVerifier.asVerifier {ω : Type} (s : tokenEpochsVerifier) : sessionTokenVerifier ω :=
  pureVerifier s.verifySessionToken

end ObjectService

/-! # Marking an object for relocation (`pkg/local_object_storage/shard/move.go`) -/

namespace ShardService

/-- Parameter standing for `shard.Mode` (its declaration is not among the sources):
`ModeReadWrite` is the mode `ToMoveIt` compares with, every other mode is an `other`. -/
inductive Mode where
  | ModeReadWrite
  | other (code : Nat)
  deriving DecidableEq, Repr

/-- Errors: the shard's `ErrReadOnlyMode` and any other error. -/
inductive ShardError where
  | ErrReadOnlyMode
  | other (code : Nat)
  deriving DecidableEq, Repr

/-- An object address. -/
abbrev Address := Nat

/-- Struct `ToMoveItPrm`; the address is a pointer that may be nil. -/
structure ToMoveItPrm where
  addr : Option Address
  deriving DecidableEq, Repr

/-- Struct `ToMoveItRes`. -/
structure ToMoveItRes where
  deriving DecidableEq, Repr

/-- Method `ToMoveItPrm.WithAddress` (lines 19-25) on a receiver that is not nil. -/
def ToMoveItPrm.WithAddress (_p : ToMoveItPrm) (addr : Option Address) : ToMoveItPrm :=
  { addr := addr }

/-- Parameter standing for `meta.ToMoveIt` of the metabase package: it may fail and may
change the metabase `μ`. -/
abbrev MetaToMoveIt (μ : Type) := μ → Option Address → Option ShardError × μ

/-- Struct `Shard`, as far as `ToMoveIt` uses it: the mode that `GetMode()` gives, the
metabase, and the debug lines of its logger (each with the error it reports). -/
structure Shard (μ : Type) where
  mode : Mode
  metaBase : μ
  log : List ShardError

/-- Method `Shard.ToMoveIt` (lines 29-42) on a parameter that is not nil: the Go pair of a
result pointer and an error, and the shard after the call. -/
def Shard.ToMoveIt {μ : Type} (metaToMoveIt : MetaToMoveIt μ) (s : Shard μ) (prm : ToMoveItPrm) :
    (Option ToMoveItRes × Option ShardError) × Shard μ :=
  if s.mode ≠ Mode.ModeReadWrite then
    ((none, some ShardError.ErrReadOnlyMode), s)
  else
    match metaToMoveIt s.metaBase prm.addr with
    | (some err, mb) =>
        ((some {}, none), { mode := s.mode, metaBase := mb, log := s.log ++ [err] })
    | (none, mb) =>
        ((some {}, none), { mode := s.mode, metaBase := mb, log := s.log })

/-- The metabase operation with every call written into a journal of the addresses asked. -/
def observeMeta {μ : Type} (metaToMoveIt : MetaToMoveIt μ) :
    MetaToMoveIt (μ × List (Option Address)) :=
  fun mb addr =>
    match metaToMoveIt mb.1 addr with
    | (r, mb1) => (r, (mb1, mb.2 ++ [addr]))

/-- One observed run of `ToMoveIt` on the shard `s`, from an empty journal. -/
def runToMoveIt {μ : Type} (metaToMoveIt : MetaToMoveIt μ) (s : Shard μ) (prm : ToMoveItPrm) :
    (Option ToMoveItRes × Option ShardError) × Shard (μ × List (Option Address)) :=
  Shard.ToMoveIt (observeMeta metaToMoveIt)
    { mode := s.mode, metaBase := (s.metaBase, []), log := s.log } prm

/-- A metabase operation that always fails and counts its calls. -/
def brokenMeta : MetaToMoveIt Nat := fun n _ => (some (ShardError.other 5), n + 1)

end ShardService

/-! # Forwarding a search request over an address group (`pkg/services/object/search/v2/util.go`) -/

namespace SearchService

/-- A network address of a node. -/
abbrev Address := Nat

/-- An object identifier `oidSDK.ID`. -/
abbrev ID := Nat

/-- An `error` value that is not nil. -/
abbrev FwdError := Nat

/-- Struct `client.NodeInfo`, as far as the forwarder reads it. -/
structure NodeInfo where
  PublicKey : List Nat
  AddressGroup : List Address
  deriving DecidableEq, Repr

/-- The per-address function given to `groupAddressRequestForwarder`: from an address, the
client `κ` and the public key to the Go pair of an ID slice (nil is the empty list) and an
error, in the world `ω`. -/
abbrev PerAddress (κ ω : Type) := Address → κ → List Nat → ω → (List ID × Option FwdError) × ω

/-- The variables the closure of the forwarder shares with its callback (`firstErr`, `res`)
and the world. -/
structure FwdState (ω : Type) where
  world : ω
  res : List ID
  firstErr : Option FwdError

/-- Modelled from the spec: `network.AddressGroup.IterateAddresses` (package `network` is not
among the sources), the multi-address fan-out: the addresses are visited in order until the
callback answers stop. -/
def IterateAddresses {σ : Type} (cb : Address → σ → Bool × σ) : List Address → σ → σ
  | [], st => st
  | addr :: rest, st =>
      match cb addr st with
      | (true, st1) => st1
      | (false, st1) => IterateAddresses cb rest st1

/-- The callback of the forwarder (lines 131-147): `f` is called, then the deferred function
sets `stop` and `firstErr`. -/
def forwardCallback {κ ω : Type} (f : PerAddress κ ω) (c : κ) (key : List Nat)
    (addr : Address) (st : FwdState ω) : Bool × FwdState ω :=
  match f addr c key st.world with
  | ((res, err), w1) =>
      let stop := err.isNone
      (stop, { world := w1
               res := res
               firstErr := if stop || st.firstErr.isNone then err else st.firstErr })

/-- Function `groupAddressRequestForwarder` (lines 122-151): the forwarder it returns, applied
to the node `info` and the client `c`. -/
def groupAddressRequestForwarder {κ ω : Type} (f : PerAddress κ ω) (info : NodeInfo) (c : κ)
    (w : ω) : (List ID × Option FwdError) × ω :=
  match IterateAddresses (forwardCallback f c info.PublicKey) info.AddressGroup
      { world := w, res := [], firstErr := none } with
  | st => ((st.res, st.firstErr), st.world)

/-- A per-address function that does not look at the world, with every call written into a
journal of the addresses tried. -/
def journalled {κ : Type} (g : Address → κ → List Nat → List ID × Option FwdError) :
    PerAddress κ (List Address) :=
  fun addr c key j => (g addr c key, j ++ [addr])

/-- A per-address function for the scenarios: addresses below 10 fail with their own number
as the error, the others give the address as the only ID. -/
def sampleFetch : Address → Unit → List Nat → List ID × Option FwdError :=
  fun addr _ _ => if addr < 10 then ([], some addr) else ([addr], none)

end SearchService

/-! # The token pre-processor (`services/public/object/token.go`, lines 41-73 and 87-97) -/

namespace ObjectService

/-- Parameter standing for what `preProcess` uses and the sources do not hold: the methods
`GetVerb` and `GetOwnerKey` of the token interface, the function `allowedSpawn` of the
package, `crypto.UnmarshalPublicKey` and `service.VerifySignatureWithKey`. The two
checks run in the world, so that a journal can tell whether they were consulted. -/
structure TokenEnv (ω : Type) where
  GetVerb : SessionToken → Nat
  GetOwnerKey : SessionToken → List Nat
  allowedSpawn : Nat → Nat → ω → Bool × ω
  UnmarshalPublicKey : List Nat → Nat
  VerifySignatureWithKey : Nat → SessionToken → ω → Option TokenError × ω

/-- Interface `serviceRequest`, as far as `preProcess` reads it: `GetSessionToken()`, which
may be nil, and `Type()` (here `ReqType`, `Type` being taken in Lean). -/
structure serviceRequest where
  GetSessionToken : Option SessionToken
  ReqType : Nat
  deriving DecidableEq, Repr

/-- Struct `tokenSignatureVerifier`: the owner keys. -/
structure tokenSignatureVerifier where
  ownerKeys : List Nat
  deriving DecidableEq, Repr

/-- The loop of `tokenSignatureVerifier.verifySessionToken` (lines 90-96) over the rest of
the keys: the first signature error is returned. -/
def verifySignatures {ω : Type} (env : TokenEnv ω) (token : SessionToken) :
    List Nat → ω → Option TokenError × ω
  | [], w => (none, w)
  | key :: rest, w =>
      match env.VerifySignatureWithKey key token w with
      | (some err, w1) => (some err, w1)
      | (none, w1) => verifySignatures env token rest w1

/-- Method `tokenSignatureVerifier.verifySessionToken` (lines 87-97). -/
def tokenSignatureVerifier.verifySessionToken {ω : Type} (env : TokenEnv ω)
    (s : tokenSignatureVerifier) : sessionTokenVerifier ω :=
  fun token w => verifySignatures env token s.ownerKeys w

/-- Function `newComplexTokenVerifier` (lines 69-73). -/
def newComplexTokenVerifier {ω : Type} (verifiers : List (Option (sessionTokenVerifier ω))) :
    complexTokenVerifier ω :=
  { verifiers := verifiers }

/-- Struct `tokenPreProcessor`: `keyVerifier` seen through `VerifyKey`, and the static
verifier, an interface value that may be nil. -/
structure tokenPreProcessor (ω : Type) where
  keyVerifier : SessionToken → ω → Option TokenError × ω
  staticVerifier : Option (sessionTokenVerifier ω)

/-- Method `tokenPreProcessor.preProcess` (lines 41-67). -/
def tokenPreProcessor.preProcess {ω : Type} (env : TokenEnv ω) (s : tokenPreProcessor ω)
    (req : serviceRequest) (w : ω) : Option TokenError × ω :=
  match req.GetSessionToken with
  | none => (none, w)
  | some token =>
      match env.allowedSpawn (env.GetVerb token) req.ReqType w with
      | (false, w1) => (some TokenError.errForbiddenSpawn, w1)
      | (true, w1) =>
          match s.keyVerifier token w1 with
          | (some err, w2) => (some err, w2)
          | (none, w2) =>
              (newComplexTokenVerifier
                [s.staticVerifier,
                 some (tokenSignatureVerifier.verifySessionToken env
                   { ownerKeys := [env.UnmarshalPublicKey (env.GetOwnerKey token)] })]
              ).verifySessionToken token w2

/-- What the pre-processor may consult: `allowedSpawn` (with verb, request type and answer),
the owner key verifier, the static verifier, the signature check (each with its answer). -/
inductive PreEvent where
  | spawn (verb type : Nat) (r : Bool)
  | key (r : Option TokenError)
  | static (r : Option TokenError)
  | signature (r : Option TokenError)
  deriving DecidableEq, Repr

/-- The environment `env` with `allowedSpawn` and the signature check written into a journal. -/
def observeEnv {ω : Type} (env : TokenEnv ω) : TokenEnv (ω × List PreEvent) :=
  { GetVerb := env.GetVerb
    GetOwnerKey := env.GetOwnerKey
    allowedSpawn := fun verb type s =>
      match env.allowedSpawn verb type s.1 with
      | (r, w1) => (r, (w1, s.2 ++ [PreEvent.spawn verb type r]))
    UnmarshalPublicKey := env.UnmarshalPublicKey
    VerifySignatureWithKey := fun key token s =>
      match env.VerifySignatureWithKey key token s.1 with
      | (r, w1) => (r, (w1, s.2 ++ [PreEvent.signature r])) }

/-- The pre-processor `s` with its two verifiers written into a journal. -/
def observePreProcessor {ω : Type} (s : tokenPreProcessor ω) :
    tokenPreProcessor (ω × List PreEvent) :=
  { keyVerifier := fun token st =>
      match s.keyVerifier token st.1 with
      | (r, w1) => (r, (w1, st.2 ++ [PreEvent.key r]))
    staticVerifier := s.staticVerifier.map (fun v token st =>
      match v token st.1 with
      | (r, w1) => (r, (w1, st.2 ++ [PreEvent.static r]))) }

/-- One observed run of `preProcess` from the world `w` with an empty journal. -/
def runPreProcess {ω : Type} (env : TokenEnv ω) (s : tokenPreProcessor ω)
    (req : serviceRequest) (w : ω) : Option TokenError × (ω × List PreEvent) :=
  (observePreProcessor s).preProcess (observeEnv env) req (w, [])

/-- An environment for the scenarios: the verb of a token is its payload, a spawn is allowed
when verb and request type are equal, and every signature is good. -/
def sampleEnv : TokenEnv Unit :=
  { GetVerb := fun token => token.payload
    GetOwnerKey := fun _ => [1, 2, 3]
    allowedSpawn := fun verb type w => (decide (verb = type), w)
    UnmarshalPublicKey := fun bytes => bytes.length
    VerifySignatureWithKey := fun _ _ w => (none, w) }

/-- A pre-processor for the scenarios: the key verifier rejects, the static verifier is the
epoch verifier in epoch 7. -/
def samplePreProcessor : tokenPreProcessor Unit :=
  { keyVerifier := fun _ w => (some (TokenError.other 9), w)
    staticVerifier := some (tokenEpochsVerifier.asVerifier { epochRecv := { Epoch := 7 } }) }

end ObjectService

/-! # The wire format of `HelloRequest` (`lib/muxer/muxer_test.pb.go`) -/

namespace Muxer

/-- Message `HelloRequest`: `Name` is the bytes of the Go string, `XXX_unrecognized` the
bytes kept from unknown fields (nil is the empty list; the code only asks for its length). -/
structure HelloRequest where
  Name : List Nat
  XXX_unrecognized : List Nat
  deriving DecidableEq, Repr

/-- The errors of `Unmarshal`: the three variables of lines 596-600, `io.ErrUnexpectedEOF`,
the three `fmt.Errorf` of lines 368, 371 and 376, and whatever `skipMuxerTest` returns. -/
inductive PbError where
  | ErrInvalidLengthMuxerTest
  | ErrIntOverflowMuxerTest
  | ErrUnexpectedEndOfGroupMuxerTest
  | ErrUnexpectedEOF
  | wiretypeEndGroup
  | illegalTag
  | wrongWireType
  | skip (code : Nat)
  deriving DecidableEq, Repr

/-- How a call ends: with a value, with an error, with a Go panic (index out of range), or
without an end within the steps granted. -/
inductive Res (α : Type) where
  | ok (a : α)
  | error (e : PbError)
  | panic
  | fuel
  deriving DecidableEq, Repr

/-- The bit length of `x` by halving, at most `n` times. -/
def lenAux : Nat → Nat → Nat
  | 0, _ => 0
  | n + 1, x => if x = 0 then 0 else lenAux n (x / 2) + 1

/-- Function `math/bits.Len64`: the number of bits of a `uint64` value. -/
def Len64 (x : Nat) : Nat := lenAux 64 x

/-- Function `sovMuxerTest` (lines 339-341). -/
def sovMuxerTest (x : Nat) : Nat := (Len64 (x ||| 1) + 6) / 7

/-- The loop and the last write of `encodeVarintMuxerTest` (lines 299-304), in at most `n`
steps; a write outside the buffer is a panic; `uint8(..)` is `% 256`. -/
def encodeVarintLoop : Nat → List Nat → Nat → Nat → Res (List Nat)
  | 0, _, _, _ => Res.fuel
  | n + 1, dAtA, offset, v =>
      if v ≥ 1 <<< 7 then
        if offset < dAtA.length then
          encodeVarintLoop n (dAtA.set offset ((v &&& 0x7f ||| 0x80) % 256)) (offset + 1) (v >>> 7)
        else
          Res.panic
      else if offset < dAtA.length then
        Res.ok (dAtA.set offset (v % 256))
      else
        Res.panic

/-- Function `encodeVarintMuxerTest` (lines 296-306): the buffer after the writes and `base`.
An offset below zero makes the first write panic. Ten steps are enough for a `uint64`. -/
def encodeVarintMuxerTest (dAtA : List Nat) (offset v : Nat) : Res (List Nat × Nat) :=
  if sovMuxerTest v ≤ offset then
    match encodeVarintLoop 10 dAtA (offset - sovMuxerTest v) v with
    | Res.ok buf => Res.ok (buf, offset - sovMuxerTest v)
    | Res.error e => Res.error e
    | Res.panic => Res.panic
    | Res.fuel => Res.fuel
  else
    Res.panic

/-- Method `HelloRequest.Size` (lines 307-321) on a receiver that is not nil. -/
def HelloRequest.Size (m : HelloRequest) : Nat :=
  (if m.Name.length > 0 then 1 + m.Name.length + sovMuxerTest m.Name.length else 0) +
    m.XXX_unrecognized.length

/-- Go `copy(dAtA[i:], src)` for `i` within the buffer: as many bytes of `src` as fit are
written from position `i` on. -/
def copyAt (dAtA : List Nat) (i : Nat) (src : List Nat) : List Nat :=
  dAtA.take i ++ src.take (dAtA.length - i) ++ dAtA.drop (i + src.length)

/-- Method `HelloRequest.MarshalToSizedBuffer` (lines 243-260): the buffer after the writes
and the count returned. Every index below zero or beyond the buffer is a panic. -/
def HelloRequest.MarshalToSizedBuffer (m : HelloRequest) (dAtA : List Nat) : Res (List Nat × Nat) :=
  if m.XXX_unrecognized.length ≤ dAtA.length then
    let i := dAtA.length - m.XXX_unrecognized.length
    let buf := copyAt dAtA i m.XXX_unrecognized
    if m.Name.length > 0 then
      if m.Name.length ≤ i then
        let i1 := i - m.Name.length
        let buf1 := copyAt buf i1 m.Name
        match encodeVarintMuxerTest buf1 i1 m.Name.length with
        | Res.ok (buf2, i2) =>
            if 1 ≤ i2 then
              Res.ok (buf2.set (i2 - 1) 0xa, dAtA.length - (i2 - 1))
            else
              Res.panic
        | Res.error e => Res.error e
        | Res.panic => Res.panic
        | Res.fuel => Res.fuel
      else
        Res.panic
    else
      Res.ok (buf, dAtA.length - i)
  else
    Res.panic

/-- Method `HelloRequest.Marshal` (lines 228-236). -/
def HelloRequest.Marshal (m : HelloRequest) : Res (List Nat) :=
  match m.MarshalToSizedBuffer (List.replicate m.Size 0) with
  | Res.ok (dAtA, n) => if n ≤ dAtA.length then Res.ok (dAtA.take n) else Res.panic
  | Res.error e => Res.error e
  | Res.panic => Res.panic
  | Res.fuel => Res.fuel

/-- The loop that reads a varint in `Unmarshal` (lines 351-364 and 379-392, the same loop
twice): from the shift, the index and the value so far to the value and the index after it.
`uint64` arithmetic is `% 2 ^ 64`. Eleven steps are enough: the eleventh ends with the
overflow error. -/
def decodeVarint (dAtA : List Nat) : Nat → Nat → Nat → Nat → Res (Nat × Nat)
  | 0, _, _, _ => Res.fuel
  | n + 1, shift, iNdEx, acc =>
      if shift ≥ 64 then
        Res.error PbError.ErrIntOverflowMuxerTest
      else if iNdEx ≥ dAtA.length then
        Res.error PbError.ErrUnexpectedEOF
      else
        if dAtA.getD iNdEx 0 < 0x80 then
          Res.ok (acc ||| (((dAtA.getD iNdEx 0 &&& 0x7F) <<< shift) % 2 ^ 64), iNdEx + 1)
        else
          decodeVarint dAtA n (shift + 7) (iNdEx + 1)
            (acc ||| (((dAtA.getD iNdEx 0 &&& 0x7F) <<< shift) % 2 ^ 64))

/-- Conversion `int32(x)` of a `uint64` value. -/
def toInt32 (x : Nat) : Int :=
  if x % 2 ^ 32 < 2 ^ 31 then ((x % 2 ^ 32 : Nat) : Int) else ((x % 2 ^ 32 : Nat) : Int) - 2 ^ 32

/-- Parameter standing for `skipMuxerTest` (lines 517-594), which `Unmarshal` calls for a
field number other than 1: from the rest of the buffer to a count (a Go `int`) or an error. -/
abbrev Skip := List Nat → Except PbError Int

/-- The loop of `HelloRequest.Unmarshal` (lines 348-424) from the index `iNdEx` on, and the
check after it (lines 426-429), in at most `n` rounds. The `int` values are 64 bits wide:
`int(stringLen)` is below zero from `2 ^ 63` on, and so is a sum that passes `2 ^ 63`. -/
def unmarshalLoop (skip : Skip) (dAtA : List Nat) : Nat → Nat → HelloRequest → Res HelloRequest
  | 0, _, _ => Res.fuel
  | n + 1, iNdEx, m =>
      if iNdEx < dAtA.length then
        match decodeVarint dAtA 11 0 iNdEx 0 with
        | Res.ok (wire, iNdEx1) =>
            if wire &&& 0x7 = 4 then
              Res.error PbError.wiretypeEndGroup
            else if toInt32 (wire >>> 3) ≤ 0 then
              Res.error PbError.illegalTag
            else if toInt32 (wire >>> 3) = 1 then
              if wire &&& 0x7 ≠ 2 then
                Res.error PbError.wrongWireType
              else
                match decodeVarint dAtA 11 0 iNdEx1 0 with
                | Res.ok (stringLen, iNdEx2) =>
                    if stringLen ≥ 2 ^ 63 then
                      Res.error PbError.ErrInvalidLengthMuxerTest
                    else if iNdEx2 + stringLen ≥ 2 ^ 63 then
                      Res.error PbError.ErrInvalidLengthMuxerTest
                    else if iNdEx2 + stringLen > dAtA.length then
                      Res.error PbError.ErrUnexpectedEOF
                    else
                      unmarshalLoop skip dAtA n (iNdEx2 + stringLen)
                        { Name := (dAtA.drop iNdEx2).take stringLen
                          XXX_unrecognized := m.XXX_unrecognized }
                | Res.error e => Res.error e
                | Res.panic => Res.panic
                | Res.fuel => Res.fuel
            else
              match skip (dAtA.drop iNdEx) with
              | Except.error e => Res.error e
              | Except.ok skippy =>
                  if skippy < 0 then
                    Res.error PbError.ErrInvalidLengthMuxerTest
                  else if (iNdEx : Int) + skippy ≥ 2 ^ 63 then
                    Res.error PbError.ErrInvalidLengthMuxerTest
                  else if (iNdEx : Int) + skippy > dAtA.length then
                    Res.error PbError.ErrUnexpectedEOF
                  else
                    unmarshalLoop skip dAtA n (iNdEx + skippy.toNat)
                      { Name := m.Name
                        XXX_unrecognized :=
                          m.XXX_unrecognized ++ (dAtA.drop iNdEx).take skippy.toNat }
        | Res.error e => Res.error e
        | Res.panic => Res.panic
        | Res.fuel => Res.fuel
      else if iNdEx > dAtA.length then
        Res.error PbError.ErrUnexpectedEOF
      else
        Res.ok m

/-- Method `HelloRequest.Unmarshal` (lines 345-430) on the message `m`: the message after a
run without error. Every round of the loop of the code moves the index forward, so one
round more than the buffer has bytes is enough. -/
def HelloRequest.Unmarshal (skip : Skip) (m : HelloRequest) (dAtA : List Nat) : Res HelloRequest :=
  unmarshalLoop skip dAtA (dAtA.length + 1) 0 m

/-- The bytes of the varint of `v`, in at most `n` bytes. -/
def varintBytes : Nat → Nat → List Nat
  | 0, _ => []
  | n + 1, v => if v ≥ 128 then (v % 128 + 128) :: varintBytes n (v / 128) else [v]

/-- A skip function for the scenarios: it always fails. -/
def noSkip : Skip := fun _ => Except.error (PbError.skip 0)

end Muxer

namespace Reputation

/-! ## The two loops -/

/-- A journal segment `cs` with result `r` is a fail-fast pass over the records `ts`:
calls are made in order, all succeed but possibly the last, and the failure of
the last one is the result. -/
inductive FailFast : List Trust → List (Trust × Option Error) → Option Error → Prop
  | done : FailFast [] [] none
  | step {t : Trust} {ts : List Trust} {cs : List (Trust × Option Error)} {r : Option Error} :
      FailFast ts cs r → FailFast (t :: ts) ((t, none) :: cs) r
  | stop {t : Trust} {ts : List Trust} {e : Error} : FailFast (t :: ts) [(t, some e)] (some e)

theorem emitLoop_observed {ω : Type} (h : TrustHandler ω) (localIndex : Int) (p : TrustValue) :
    ∀ (nodes : List NodeInfo) (i : Nat) (o : Observed ω),
      ∃ cs, (emitLoop (observeHandler h) localIndex p nodes i o).2.calls = o.calls ++ cs ∧
        (emitLoop (observeHandler h) localIndex p nodes i o).2.queries = o.queries ∧
        FailFast (fallbackRecords localIndex p nodes i) cs
          (emitLoop (observeHandler h) localIndex p nodes i o).1 := by
  intro nodes
  induction nodes with
  | nil =>
      intro i o
      exact ⟨[], by simp [emitLoop], by simp [emitLoop], by simpa [emitLoop, fallbackRecords] using FailFast.done⟩
  | cons nd rest ih =>
      intro i o
      by_cases hi : (i : Int) = localIndex
      · obtain ⟨cs, h1, h2, h3⟩ := ih (i + 1) o
        refine ⟨cs, ?_, ?_, ?_⟩
        · simpa [emitLoop, hi] using h1
        · simpa [emitLoop, hi] using h2
        · simpa [emitLoop, fallbackRecords, hi] using h3
      · rcases hh : h { peer := PeerIDFromBytes nd.PublicKey, value := p } o.world with ⟨r, w1⟩
        cases r with
        | some e =>
            refine ⟨[({ peer := PeerIDFromBytes nd.PublicKey, value := p }, some e)], ?_, ?_, ?_⟩
            · simp [emitLoop, hi, observeHandler, hh]
            · simp [emitLoop, hi, observeHandler, hh]
            · simpa [emitLoop, fallbackRecords, hi, observeHandler, hh] using FailFast.stop
        | none =>
            obtain ⟨cs, h1, h2, h3⟩ := ih (i + 1)
              { world := w1
                calls := o.calls ++ [({ peer := PeerIDFromBytes nd.PublicKey, value := p }, none)]
                queries := o.queries }
            refine ⟨({ peer := PeerIDFromBytes nd.PublicKey, value := p }, none) :: cs, ?_, ?_, ?_⟩
            · simpa [emitLoop, hi, observeHandler, hh] using h1
            · simpa [emitLoop, hi, observeHandler, hh] using h2
            · simpa [emitLoop, fallbackRecords, hi, observeHandler, hh] using FailFast.step h3

theorem FailFast.map_fst {ts : List Trust} {cs : List (Trust × Option Error)} {r : Option Error}
    (hf : FailFast ts cs r) : cs.map Prod.fst = ts.take cs.length := by
  induction hf with
  | done => simp
  | step _ ih => simp [ih]
  | stop => simp

theorem FailFast.length_le {ts : List Trust} {cs : List (Trust × Option Error)} {r : Option Error}
    (hf : FailFast ts cs r) : cs.length ≤ ts.length := by
  induction hf with
  | done => simp
  | step _ ih => simpa using ih
  | stop => simp

theorem FailFast.of_ok {ts : List Trust} {cs : List (Trust × Option Error)} {r : Option Error}
    (hf : FailFast ts cs r) (hr : r = none) : cs = ts.map (fun t => (t, none)) := by
  induction hf with
  | done => simp
  | step _ ih => simp [ih hr]
  | stop => simp at hr

theorem FailFast.failure_is_last {ts : List Trust} {cs : List (Trust × Option Error)}
    {r : Option Error} (hf : FailFast ts cs r) :
    ∀ (k : Nat) (t : Trust) (e : Error), cs[k]? = some (t, some e) →
      r = some e ∧ cs.length = k + 1 := by
  induction hf with
  | done => intro k t e hk; simp at hk
  | step _ ih =>
      intro k t e hk
      cases k with
      | zero => simp at hk
      | succ k =>
          have := ih k t e (by simpa using hk)
          exact ⟨this.1, by simp [this.2]⟩
  | stop =>
      intro k t e hk
      cases k with
      | zero =>
          simp at hk
          exact ⟨by rw [hk.2], by simp⟩
      | succ k => simp at hk

theorem emitLoop_neverFails {ω : Type} (h : TrustHandler ω) (hh : ∀ t w, (h t w).1 = none)
    (localIndex : Int) (p : TrustValue) :
    ∀ (nodes : List NodeInfo) (i : Nat) (o : Observed ω),
      (emitLoop (observeHandler h) localIndex p nodes i o).1 = none := by
  intro nodes
  induction nodes with
  | nil => intro i o; simp [emitLoop]
  | cons nd rest ih =>
      intro i o
      by_cases hi : (i : Int) = localIndex
      · simpa [emitLoop, hi] using ih (i + 1) o
      · rcases hc : h { peer := PeerIDFromBytes nd.PublicKey, value := p } o.world with ⟨r, w1⟩
        have hr : r = none := by simpa [hc] using hh { peer := PeerIDFromBytes nd.PublicKey, value := p } o.world
        subst hr
        simpa [emitLoop, hi, observeHandler, hc] using ih (i + 1) _

theorem findLocalIndex_absent (localKey : Bytes) :
    ∀ (nodes : List NodeInfo) (i : Nat) (acc : Int),
      (∀ nd ∈ nodes, nd.PublicKey ≠ localKey) → findLocalIndex localKey nodes i acc = acc := by
  intro nodes
  induction nodes with
  | nil => intro i acc _; simp [findLocalIndex]
  | cons nd rest ih =>
      intro i acc hn
      have h1 : nd.PublicKey ≠ localKey := hn nd (by simp)
      simpa [findLocalIndex, h1] using ih (i + 1) acc (fun x hx => hn x (by simp [hx]))

theorem findLocalIndex_range (localKey : Bytes) :
    ∀ (nodes : List NodeInfo) (i : Nat) (acc : Int),
      findLocalIndex localKey nodes i acc = acc ∨
        ((i : Int) ≤ findLocalIndex localKey nodes i acc ∧
          findLocalIndex localKey nodes i acc < (i : Int) + nodes.length) := by
  intro nodes
  induction nodes with
  | nil => intro i acc; simp [findLocalIndex]
  | cons nd rest ih =>
      intro i acc
      by_cases hk : nd.PublicKey = localKey
      · rcases ih (i + 1) (i : Int) with h1 | h1
        · right
          simp only [findLocalIndex, hk, if_true, h1]
          simp only [List.length_cons]; push_cast; omega
        · right
          simp only [findLocalIndex, hk, if_true]
          simp only [List.length_cons]; push_cast at h1 ⊢; omega
      · rcases ih (i + 1) acc with h1 | h1
        · left; simpa [findLocalIndex, hk] using h1
        · right
          simp only [findLocalIndex, hk, if_false]
          simp only [List.length_cons]; push_cast at h1 ⊢; omega

theorem findLocalIndex_present (localKey : Bytes) :
    ∀ (nodes : List NodeInfo) (i : Nat) (acc : Int),
      (∃ nd ∈ nodes, nd.PublicKey = localKey) →
        ((i : Int) ≤ findLocalIndex localKey nodes i acc ∧
          findLocalIndex localKey nodes i acc < (i : Int) + nodes.length) := by
  intro nodes
  induction nodes with
  | nil => intro i acc hex; simp at hex
  | cons nd rest ih =>
      intro i acc hex
      by_cases hk : nd.PublicKey = localKey
      · rcases findLocalIndex_range localKey rest (i + 1) (i : Int) with h1 | h1
        · simp only [findLocalIndex, hk, if_true, h1]
          simp only [List.length_cons]; push_cast; omega
        · simp only [findLocalIndex, hk, if_true]
          simp only [List.length_cons]; push_cast at h1 ⊢; omega
      · have hex2 : ∃ x ∈ rest, x.PublicKey = localKey := by
          obtain ⟨x, hx, hxk⟩ := hex
          rcases List.mem_cons.mp hx with rfl | hx2
          · exact absurd hxk hk
          · exact ⟨x, hx2, hxk⟩
        have h1 := ih (i + 1) acc hex2
        simp only [findLocalIndex, hk, if_false]
        simp only [List.length_cons]; push_cast at h1 ⊢; omega

theorem fallbackRecords_outside (localIndex : Int) (p : TrustValue) :
    ∀ (nodes : List NodeInfo) (i : Nat),
      (localIndex < (i : Int) ∨ (i : Int) + nodes.length ≤ localIndex) →
        fallbackRecords localIndex p nodes i =
          nodes.map (fun nd => { peer := PeerIDFromBytes nd.PublicKey, value := p }) := by
  intro nodes
  induction nodes with
  | nil => intro i _; simp [fallbackRecords]
  | cons nd rest ih =>
      intro i ho
      have hi : ¬ (i : Int) = localIndex := by
        simp only [List.length_cons] at ho; push_cast at ho; omega
      have h2 := ih (i + 1) (by simp only [List.length_cons] at ho; push_cast at ho ⊢; omega)
      simp [fallbackRecords, hi, h2]

theorem fallbackRecords_length_inside (localIndex : Int) (p : TrustValue) :
    ∀ (nodes : List NodeInfo) (i : Nat),
      (i : Int) ≤ localIndex → localIndex < (i : Int) + nodes.length →
        (fallbackRecords localIndex p nodes i).length + 1 = nodes.length := by
  intro nodes
  induction nodes with
  | nil => intro i h1 h2; simp at h2; omega
  | cons nd rest ih =>
      intro i h1 h2
      by_cases hi : (i : Int) = localIndex
      · have := fallbackRecords_outside localIndex p rest (i + 1) (Or.inl (by push_cast; omega))
        simp [fallbackRecords, hi, this]
      · have h3 := ih (i + 1) (by push_cast; omega)
          (by simp only [List.length_cons] at h2; push_cast at h2 ⊢; omega)
        simp [fallbackRecords, hi, h3]

theorem fallbackRecords_value (localIndex : Int) (p : TrustValue) :
    ∀ (nodes : List NodeInfo) (i : Nat), ∀ t ∈ fallbackRecords localIndex p nodes i, t.value = p := by
  intro nodes
  induction nodes with
  | nil => intro i t ht; simp [fallbackRecords] at ht
  | cons nd rest ih =>
      intro i t ht
      by_cases hi : (i : Int) = localIndex
      · exact ih (i + 1) t (by simpa [fallbackRecords, hi] using ht)
      · simp only [fallbackRecords, hi, if_false, List.mem_cons] at ht
        rcases ht with rfl | ht
        · rfl
        · exact ih (i + 1) t ht

theorem fallbackRecords_sublist (localIndex : Int) (p : TrustValue) :
    ∀ (nodes : List NodeInfo) (i : Nat),
      List.Sublist ((fallbackRecords localIndex p nodes i).map (fun t => t.peer.Bytes))
        (nodes.map (fun nd => nd.PublicKey)) := by
  intro nodes
  induction nodes with
  | nil => intro i; simp [fallbackRecords]
  | cons nd rest ih =>
      intro i
      by_cases hi : (i : Int) = localIndex
      · simpa [fallbackRecords, hi] using List.Sublist.cons _ (ih (i + 1))
      · simpa [fallbackRecords, hi, PeerIDFromBytes] using (ih (i + 1))

/-! ## The run as a whole -/

theorem runIterate_fallback {ω : Type} (it : localTrustIterator ω) (h : TrustHandler ω) (w : ω)
    (hno : NoRecordedTrust it) :
    runIterate it h w =
      it.observed.uniformFallback (observeHandler h) { world := w, calls := [], queries := [] } := by
  obtain ⟨ctx, st, es⟩ := it
  cases es with
  | none => simp [runIterate, localTrustIterator.Iterate, localTrustIterator.observed]
  | some e =>
      cases e with
      | ret err =>
          have hm : errorsIs err Error.ErrNoPositiveTrust = true := hno
          simp [runIterate, localTrustIterator.Iterate, localTrustIterator.observed,
            EpochTrustValueStorage.Iterate, hm]
      | call t next => exact absurd hno (by simp [NoRecordedTrust])

theorem uniformFallback_ok {ω : Type} (it : localTrustIterator ω) (h : TrustHandler ω)
    (o : Observed ω) (nm : Netmap) (hsrc : SourceGives it nm) :
    it.observed.uniformFallback (observeHandler h) o =
      emitLoop (observeHandler h) (findLocalIndex it.storage.localKey nm.Nodes 0 (-1))
        (TrustOne.Div (TrustValueFromInt
          (fallbackDivisor (findLocalIndex it.storage.localKey nm.Nodes 0 (-1)) nm.Nodes)))
        nm.Nodes 0
        { world := (it.storage.nmSrc it.ctx.Epoch o.world).2
          calls := o.calls
          queries := o.queries ++ [it.ctx.Epoch] } := by
  have h1 := hsrc o.world
  rcases hq : it.storage.nmSrc it.ctx.Epoch o.world with ⟨r, w1⟩
  rw [hq] at h1
  simp only at h1
  subst h1
  simp [localTrustIterator.uniformFallback, localTrustIterator.observed, observeSource, hq]

theorem uniformFallback_error {ω : Type} (it : localTrustIterator ω) (h : TrustHandler ω)
    (o : Observed ω) (err : Error) (hsrc : SourceFails it err) :
    it.observed.uniformFallback (observeHandler h) o =
      (some err, { world := (it.storage.nmSrc it.ctx.Epoch o.world).2
                   calls := o.calls
                   queries := o.queries ++ [it.ctx.Epoch] }) := by
  have h1 := hsrc o.world
  rcases hq : it.storage.nmSrc it.ctx.Epoch o.world with ⟨r, w1⟩
  rw [hq] at h1
  simp only at h1
  subst h1
  simp [localTrustIterator.uniformFallback, localTrustIterator.observed, observeSource, hq]

/-- The journal of a fallback run: a fail-fast pass over the fallback records. -/
theorem runIterate_failFast {ω : Type} (it : localTrustIterator ω) (h : TrustHandler ω) (w : ω)
    (nm : Netmap) (hno : NoRecordedTrust it) (hsrc : SourceGives it nm) :
    FailFast
      (fallbackRecords (findLocalIndex it.storage.localKey nm.Nodes 0 (-1))
        (TrustOne.Div (TrustValueFromInt
          (fallbackDivisor (findLocalIndex it.storage.localKey nm.Nodes 0 (-1)) nm.Nodes)))
        nm.Nodes 0)
      (runIterate it h w).2.calls (runIterate it h w).1 := by
  rw [runIterate_fallback it h w hno, uniformFallback_ok it h _ nm hsrc]
  obtain ⟨cs, h1, _, h3⟩ := emitLoop_observed h
    (findLocalIndex it.storage.localKey nm.Nodes 0 (-1))
    (TrustOne.Div (TrustValueFromInt
      (fallbackDivisor (findLocalIndex it.storage.localKey nm.Nodes 0 (-1)) nm.Nodes)))
    nm.Nodes 0
    { world := (it.storage.nmSrc it.ctx.Epoch w).2, calls := [], queries := [] ++ [it.ctx.Epoch] }
  rw [h1]
  simpa using h3

/-- The journal of a fallback run whose handler never fails: every fallback record, no error. -/
theorem runIterate_neverFails {ω : Type} (it : localTrustIterator ω) (h : TrustHandler ω) (w : ω)
    (nm : Netmap) (hno : NoRecordedTrust it) (hsrc : SourceGives it nm)
    (hh : ∀ t w, (h t w).1 = none) :
    (runIterate it h w).1 = none ∧
      (runIterate it h w).2.calls =
        (fallbackRecords (findLocalIndex it.storage.localKey nm.Nodes 0 (-1))
          (TrustOne.Div (TrustValueFromInt
            (fallbackDivisor (findLocalIndex it.storage.localKey nm.Nodes 0 (-1)) nm.Nodes)))
          nm.Nodes 0).map (fun t => (t, none)) := by
  have hf := runIterate_failFast it h w nm hno hsrc
  have hn : (runIterate it h w).1 = none := by
    rw [runIterate_fallback it h w hno, uniformFallback_ok it h _ nm hsrc]
    exact emitLoop_neverFails h hh _ _ _ _ _
  exact ⟨hn, hf.of_ok hn⟩

theorem fallbackDivisor_present (localKey : Bytes) (nodes : List NodeInfo)
    (hloc : ∃ nd ∈ nodes, nd.PublicKey = localKey) :
    fallbackDivisor (findLocalIndex localKey nodes 0 (-1)) nodes = (nodes.length : Int) - 1 := by
  have h1 := findLocalIndex_present localKey nodes 0 (-1) hloc
  have h2 : (0 : Int) ≤ findLocalIndex localKey nodes 0 (-1) := by simpa using h1.1
  have h3 : (0 : Int) < (nodes.length : Int) := by
    have := h1.2
    push_cast at this
    omega
  simp [fallbackDivisor, h2, h3]

theorem fallbackDivisor_absent (localKey : Bytes) (nodes : List NodeInfo)
    (hloc : ∀ nd ∈ nodes, nd.PublicKey ≠ localKey) :
    fallbackDivisor (findLocalIndex localKey nodes 0 (-1)) nodes = (nodes.length : Int) := by
  rw [findLocalIndex_absent localKey nodes 0 (-1) hloc]
  simp [fallbackDivisor]

theorem mem_calls_fallbackRecords {ω : Type} (it : localTrustIterator ω) (h : TrustHandler ω)
    (w : ω) (nm : Netmap) (hno : NoRecordedTrust it) (hsrc : SourceGives it nm) :
    ∀ c ∈ (runIterate it h w).2.calls,
      c.1 ∈ fallbackRecords (findLocalIndex it.storage.localKey nm.Nodes 0 (-1))
        (TrustOne.Div (TrustValueFromInt
          (fallbackDivisor (findLocalIndex it.storage.localKey nm.Nodes 0 (-1)) nm.Nodes)))
        nm.Nodes 0 := by
  intro c hc
  have hf := (runIterate_failFast it h w nm hno hsrc).map_fst
  have h1 : c.1 ∈ (runIterate it h w).2.calls.map Prod.fst := List.mem_map.mpr ⟨c, hc, rfl⟩
  rw [hf] at h1
  exact List.mem_of_mem_take h1

theorem fallbackRecords_not_local (localKey : Bytes) (p : TrustValue) :
    ∀ (nodes : List NodeInfo) (i : Nat) (acc : Int),
      (nodes.map (fun nd => nd.PublicKey)).count localKey ≤ 1 →
        ∀ t ∈ fallbackRecords (findLocalIndex localKey nodes i acc) p nodes i,
          t.peer.Bytes ≠ localKey := by
  intro nodes
  induction nodes with
  | nil => intro i acc _ t ht; simp [fallbackRecords] at ht
  | cons nd rest ih =>
      intro i acc hcount t ht
      by_cases hk : nd.PublicKey = localKey
      · have hrest : ∀ x ∈ rest, x.PublicKey ≠ localKey := by
          intro x hx hxk
          have h0 : 0 < (rest.map (fun nd => nd.PublicKey)).count localKey :=
            List.count_pos_iff.mpr (List.mem_map.mpr ⟨x, hx, hxk⟩)
          simp [List.count_cons, hk] at hcount
          omega
        have hli : findLocalIndex localKey (nd :: rest) i acc = (i : Int) := by
          simp [findLocalIndex, hk, findLocalIndex_absent localKey rest (i + 1) (i : Int) hrest]
        rw [hli] at ht
        have hout := fallbackRecords_outside (i : Int) p rest (i + 1) (Or.inl (by push_cast; omega))
        simp only [fallbackRecords, if_true, hout] at ht
        obtain ⟨x, hx, rfl⟩ := List.mem_map.mp ht
        exact hrest x hx
      · have hcount2 : (rest.map (fun nd => nd.PublicKey)).count localKey ≤ 1 := by
          simp [List.count_cons] at hcount
          omega
        have hli : findLocalIndex localKey (nd :: rest) i acc =
            findLocalIndex localKey rest (i + 1) acc := by
          simp [findLocalIndex, hk]
        rw [hli] at ht
        by_cases hi : (i : Int) = findLocalIndex localKey rest (i + 1) acc
        · exact ih (i + 1) acc hcount2 t (by simpa [fallbackRecords, hi] using ht)
        · simp only [fallbackRecords, hi, if_false, List.mem_cons] at ht
          rcases ht with rfl | ht
          · exact hk
          · exact ih (i + 1) acc hcount2 t ht

theorem fallbackRecords_sum (localIndex : Int) (p : TrustValue) :
    ∀ (nodes : List NodeInfo) (i : Nat),
      ((fallbackRecords localIndex p nodes i).map (fun t => t.value)).sum =
        ((fallbackRecords localIndex p nodes i).length : ℚ) * p := by
  intro nodes
  induction nodes with
  | nil => intro i; simp [fallbackRecords]
  | cons nd rest ih =>
      intro i
      by_cases hi : (i : Int) = localIndex
      · simpa [fallbackRecords, hi] using ih (i + 1)
      · simp [fallbackRecords, hi, ih (i + 1)]
        ring

theorem share_times_count (count : Nat) (divisor : Int) (hd : (count : Int) = divisor)
    (hpos : 0 < count) : (count : ℚ) * TrustOne.Div (TrustValueFromInt divisor) = 1 := by
  subst hd
  have hq : (0 : ℚ) < (count : ℚ) := by exact_mod_cast hpos
  simp only [TrustOne, TrustValue.Div, TrustValueFromInt, Int.cast_natCast]
  field_simp

theorem accumulator_observed {ω : Type} (h : TrustHandler ω) :
    ∀ (es : EpochTrustValueStorage) (o : Observed ω),
      (es.Iterate (observeHandler h) o).2.queries = o.queries := by
  intro es
  induction es with
  | ret err => intro o; rfl
  | call t next ih =>
      intro o
      rcases hc : h t o.world with ⟨r, w1⟩
      simpa [EpochTrustValueStorage.Iterate, observeHandler, hc] using ih r _

/-- The run of `Iterate` in two steps: the accumulator step, and after it the fallback
unless the accumulator is there and its result is not (a wrapper of) ErrNoPositiveTrust. -/
theorem runIterate_eq {ω : Type} (it : localTrustIterator ω) (h : TrustHandler ω) (w : ω) :
    runIterate it h w =
      if it.epochStorage.isSome = true ∧
          errorsIs (runAccumulator it h w).1 Error.ErrNoPositiveTrust = false then
        runAccumulator it h w
      else
        it.observed.uniformFallback (observeHandler h) (runAccumulator it h w).2 := by
  obtain ⟨ctx, st, es⟩ := it
  cases es with
  | none => simp [runIterate, runAccumulator, localTrustIterator.Iterate, localTrustIterator.observed]
  | some e =>
      cases hm : errorsIs (e.Iterate (observeHandler h)
          { world := w, calls := [], queries := [] }).1 Error.ErrNoPositiveTrust <;>
        simp [runIterate, runAccumulator, localTrustIterator.Iterate,
          localTrustIterator.observed, hm]

theorem runAccumulator_queries {ω : Type} (it : localTrustIterator ω) (h : TrustHandler ω)
    (w : ω) : (runAccumulator it h w).2.queries = [] := by
  obtain ⟨ctx, st, es⟩ := it
  cases es with
  | none => rfl
  | some e => simpa [runAccumulator] using accumulator_observed h e _

theorem handOut_result {ω : Type} (h : TrustHandler ω)
    (hh : ∀ t w e, (h t w).1 = some e → e.Is Error.ErrNoPositiveTrust = false) :
    ∀ (rs : List Trust) (o : Observed ω),
      errorsIs ((EpochTrustValueStorage.handOut rs).Iterate (observeHandler h) o).1
        Error.ErrNoPositiveTrust = false := by
  intro rs
  induction rs with
  | nil => intro o; rfl
  | cons t rest ih =>
      intro o
      rcases hc : h t o.world with ⟨r, w1⟩
      cases r with
      | none =>
          simpa [EpochTrustValueStorage.handOut, EpochTrustValueStorage.Iterate, observeHandler, hc]
            using ih _
      | some e =>
          have he := hh t o.world e (by rw [hc])
          simpa [EpochTrustValueStorage.handOut, EpochTrustValueStorage.Iterate, observeHandler, hc,
            errorsIs] using he

/-! ## The claims -/

/-- C1: in an epoch with no recorded trust, with a roster of size N that holds the local
key and a handler that never fails, `Iterate` calls the handler exactly N-1 times, every
record carries `TrustOne.Div(TrustValueFromInt(N-1))`, and no error is returned. -/
theorem fallback_with_local_peer {ω : Type} (it : localTrustIterator ω) (h : TrustHandler ω)
    (w : ω) (nm : Netmap) (hno : NoRecordedTrust it) (hsrc : SourceGives it nm)
    (hloc : ∃ nd ∈ nm.Nodes, nd.PublicKey = it.storage.localKey) (hh : NeverFails h) :
    (runIterate it h w).2.calls.length = nm.Nodes.length - 1 ∧
      (∀ c ∈ (runIterate it h w).2.calls,
        c.1.value = TrustOne.Div (TrustValueFromInt ((nm.Nodes.length : Int) - 1))) ∧
      (runIterate it h w).1 = none := by
  obtain ⟨hn, hc⟩ := runIterate_neverFails it h w nm hno hsrc hh
  have hr := findLocalIndex_present it.storage.localKey nm.Nodes 0 (-1) hloc
  have hlen := fallbackRecords_length_inside (findLocalIndex it.storage.localKey nm.Nodes 0 (-1))
    (TrustOne.Div (TrustValueFromInt
      (fallbackDivisor (findLocalIndex it.storage.localKey nm.Nodes 0 (-1)) nm.Nodes)))
    nm.Nodes 0 (by simpa using hr.1) (by simpa using hr.2)
  refine ⟨?_, ?_, hn⟩
  · rw [hc, List.length_map]; omega
  · intro c hcm
    rw [hc] at hcm
    obtain ⟨t, ht, rfl⟩ := List.mem_map.mp hcm
    have hv := fallbackRecords_value _ _ _ _ t ht
    rw [fallbackDivisor_present it.storage.localKey nm.Nodes hloc] at hv
    exact hv

/-- Scenario A for C1: a roster of size 4 with the local peer at position 1 and nothing
recorded for epoch 10. -/
theorem fallback_with_local_peer_witness :
    (runIterate (mkIterator 10 [9] [[1], [9], [2], [3]] none) acceptAll 0).2.calls.length = 4 - 1 ∧
      (∀ c ∈ (runIterate (mkIterator 10 [9] [[1], [9], [2], [3]] none) acceptAll 0).2.calls,
        c.1.value = TrustOne.Div (TrustValueFromInt (((4 : Nat) : Int) - 1))) ∧
      (runIterate (mkIterator 10 [9] [[1], [9], [2], [3]] none) acceptAll 0).1 = none :=
  fallback_with_local_peer (mkIterator 10 [9] [[1], [9], [2], [3]] none) acceptAll 0
    { Nodes := [[1], [9], [2], [3]].map (fun k => { PublicKey := k }) }
    trivial (fun _ => rfl) ⟨{ PublicKey := [9] }, by decide, rfl⟩ (fun _ _ => rfl)

/-- C2, as the code has it: when at most one roster entry carries the local key, no
record handed out in the uniform fallback has a peer identity equal to the local key,
whatever the handler does. -/
theorem fallback_never_emits_local {ω : Type} (it : localTrustIterator ω) (h : TrustHandler ω)
    (w : ω) (nm : Netmap) (hno : NoRecordedTrust it) (hsrc : SourceGives it nm)
    (hone : (nm.Nodes.map (fun nd => nd.PublicKey)).count it.storage.localKey ≤ 1) :
    ∀ c ∈ (runIterate it h w).2.calls, c.1.peer.Bytes ≠ it.storage.localKey := by
  intro c hc
  exact fallbackRecords_not_local it.storage.localKey _ nm.Nodes 0 (-1) hone c.1
    (mem_calls_fallbackRecords it h w nm hno hsrc c hc)

/-- C2 on a roster with the local key at position 1 only, with a handler that fails on its
second call. -/
theorem fallback_never_emits_local_witness :
    ([[1], [9], [2], [3]] : List Bytes).count [9] ≤ 1 ∧
      ∀ c ∈ (runIterate (mkIterator 10 [9] [[1], [9], [2], [3]] none)
          (failOnCall 2 (Error.other 7)) 0).2.calls,
        c.1.peer.Bytes ≠ (mkIterator 10 [9] [[1], [9], [2], [3]] none).storage.localKey :=
  ⟨by decide,
    fallback_never_emits_local (mkIterator 10 [9] [[1], [9], [2], [3]] none)
      (failOnCall 2 (Error.other 7)) 0
      { Nodes := [[1], [9], [2], [3]].map (fun k => { PublicKey := k }) }
      trivial (fun _ => rfl) (by decide)⟩

/-- C2 fails as stated: on the roster whose two entries both carry the local key, only the
entry at position 1 is skipped and the entry at position 0 is handed out. -/
theorem fallback_emits_duplicate_local :
    (runIterate (mkIterator 10 [9] [[9], [9]] none) acceptAll 0).2.calls =
        [({ peer := { Bytes := [9] }, value := TrustOne.Div (TrustValueFromInt 1) }, none)] ∧
      ¬ (∀ c ∈ (runIterate (mkIterator 10 [9] [[9], [9]] none) acceptAll 0).2.calls,
          c.1.peer.Bytes ≠ (mkIterator 10 [9] [[9], [9]] none).storage.localKey) := by
  have hc : (runIterate (mkIterator 10 [9] [[9], [9]] none) acceptAll 0).2.calls =
      [({ peer := { Bytes := [9] }, value := TrustOne.Div (TrustValueFromInt 1) }, none)] := by
    rfl
  refine ⟨hc, ?_⟩
  rw [hc]
  simp [mkIterator]

/-- C3: in an epoch with no recorded trust, with a roster of size N none of whose keys is
the local key and a handler that never fails, `Iterate` calls the handler exactly N times,
once per roster entry in roster order, each time with `TrustOne.Div(TrustValueFromInt(N))`,
and returns no error. -/
theorem fallback_without_local_peer {ω : Type} (it : localTrustIterator ω) (h : TrustHandler ω)
    (w : ω) (nm : Netmap) (hno : NoRecordedTrust it) (hsrc : SourceGives it nm)
    (hloc : ∀ nd ∈ nm.Nodes, nd.PublicKey ≠ it.storage.localKey) (hh : NeverFails h) :
    (runIterate it h w).2.calls.length = nm.Nodes.length ∧
      (runIterate it h w).2.calls = nm.Nodes.map (fun nd =>
        ({ peer := PeerIDFromBytes nd.PublicKey
           value := TrustOne.Div (TrustValueFromInt (nm.Nodes.length : Int)) }, none)) ∧
      (runIterate it h w).1 = none := by
  obtain ⟨hn, hc⟩ := runIterate_neverFails it h w nm hno hsrc hh
  have hli := findLocalIndex_absent it.storage.localKey nm.Nodes 0 (-1) hloc
  have hd := fallbackDivisor_absent it.storage.localKey nm.Nodes hloc
  rw [hd, hli, fallbackRecords_outside (-1) _ nm.Nodes 0 (Or.inl (by simp))] at hc
  have hc2 : (runIterate it h w).2.calls = nm.Nodes.map (fun nd =>
      ({ peer := PeerIDFromBytes nd.PublicKey
         value := TrustOne.Div (TrustValueFromInt (nm.Nodes.length : Int)) }, none)) := by
    rw [hc, List.map_map]
    rfl
  exact ⟨by rw [hc2, List.length_map], hc2, hn⟩

/-- C3 on a roster of three foreign keys. -/
theorem fallback_without_local_peer_witness :
    (runIterate (mkIterator 10 [9] [[1], [2], [3]] none) acceptAll 0).2.calls.length =
        (Netmap.mk ([[1], [2], [3]].map (fun k => { PublicKey := k }))).Nodes.length ∧
      (runIterate (mkIterator 10 [9] [[1], [2], [3]] none) acceptAll 0).2.calls =
        (Netmap.mk ([[1], [2], [3]].map (fun k => { PublicKey := k }))).Nodes.map (fun nd =>
          ({ peer := PeerIDFromBytes nd.PublicKey
             value := TrustOne.Div (TrustValueFromInt
               ((Netmap.mk ([[1], [2], [3]].map (fun k => { PublicKey := k }))).Nodes.length : Int)) },
            none)) ∧
      (runIterate (mkIterator 10 [9] [[1], [2], [3]] none) acceptAll 0).1 = none :=
  fallback_without_local_peer (mkIterator 10 [9] [[1], [2], [3]] none) acceptAll 0
    { Nodes := [[1], [2], [3]].map (fun k => { PublicKey := k }) }
    trivial (fun _ => rfl) (by decide) (fun _ _ => rfl)

/-- C4, as the code has it: in a fallback run with the roster retrieved and a handler that
never fails, the exact sum of the values handed out is one as soon as the roster has an
entry besides the skipped local one (two entries or more, or one entry or more none of
which is local); for the empty roster and for the roster whose only member is the local
peer no record is handed out at all. -/
theorem fallback_sum {ω : Type} (it : localTrustIterator ω) (h : TrustHandler ω)
    (w : ω) (nm : Netmap) (hno : NoRecordedTrust it) (hsrc : SourceGives it nm)
    (hh : NeverFails h) :
    ((2 ≤ nm.Nodes.length ∨
        (1 ≤ nm.Nodes.length ∧ ∀ nd ∈ nm.Nodes, nd.PublicKey ≠ it.storage.localKey)) →
      ((runIterate it h w).2.calls.map (fun c => c.1.value)).sum = 1) ∧
    ((nm.Nodes = [] ∨
        (nm.Nodes.length = 1 ∧ ∃ nd ∈ nm.Nodes, nd.PublicKey = it.storage.localKey)) →
      (runIterate it h w).2.calls = []) := by
  obtain ⟨_, hc⟩ := runIterate_neverFails it h w nm hno hsrc hh
  have hsum := fallbackRecords_sum (findLocalIndex it.storage.localKey nm.Nodes 0 (-1))
    (TrustOne.Div (TrustValueFromInt
      (fallbackDivisor (findLocalIndex it.storage.localKey nm.Nodes 0 (-1)) nm.Nodes)))
    nm.Nodes 0
  have hmap : (runIterate it h w).2.calls.map (fun c => c.1.value) =
      (fallbackRecords (findLocalIndex it.storage.localKey nm.Nodes 0 (-1))
        (TrustOne.Div (TrustValueFromInt
          (fallbackDivisor (findLocalIndex it.storage.localKey nm.Nodes 0 (-1)) nm.Nodes)))
        nm.Nodes 0).map (fun t => t.value) := by
    rw [hc, List.map_map]
    rfl
  by_cases hloc : ∃ nd ∈ nm.Nodes, nd.PublicKey = it.storage.localKey
  · have hr := findLocalIndex_present it.storage.localKey nm.Nodes 0 (-1) hloc
    have hlen := fallbackRecords_length_inside
      (findLocalIndex it.storage.localKey nm.Nodes 0 (-1))
      (TrustOne.Div (TrustValueFromInt
        (fallbackDivisor (findLocalIndex it.storage.localKey nm.Nodes 0 (-1)) nm.Nodes)))
      nm.Nodes 0 (by simpa using hr.1) (by simpa using hr.2)
    have hd := fallbackDivisor_present it.storage.localKey nm.Nodes hloc
    constructor
    · intro hbig
      have h2 : 2 ≤ nm.Nodes.length := by
        rcases hbig with h2 | ⟨_, habs⟩
        · exact h2
        · obtain ⟨nd, hnd, hk⟩ := hloc
          exact absurd hk (habs nd hnd)
      rw [hmap, hsum]
      exact share_times_count _ _ (by omega) (by omega)
    · intro hsmall
      have h1 : nm.Nodes.length = 1 := by
        rcases hsmall with h0 | ⟨h1, _⟩
        · obtain ⟨nd, hnd, _⟩ := hloc
          rw [h0] at hnd
          simp at hnd
        · exact h1
      rw [hc]
      have h0 : (fallbackRecords (findLocalIndex it.storage.localKey nm.Nodes 0 (-1))
          (TrustOne.Div (TrustValueFromInt
            (fallbackDivisor (findLocalIndex it.storage.localKey nm.Nodes 0 (-1)) nm.Nodes)))
          nm.Nodes 0).length = 0 := by omega
      rw [List.length_eq_zero] at h0
      rw [h0]
      rfl
  · have habs : ∀ nd ∈ nm.Nodes, nd.PublicKey ≠ it.storage.localKey := by
      intro nd hnd hk
      exact hloc ⟨nd, hnd, hk⟩
    have hli := findLocalIndex_absent it.storage.localKey nm.Nodes 0 (-1) habs
    have hd := fallbackDivisor_absent it.storage.localKey nm.Nodes habs
    constructor
    · intro hbig
      have h1 : 1 ≤ nm.Nodes.length := by
        rcases hbig with h2 | ⟨h1, _⟩
        · omega
        · exact h1
      rw [hmap, hsum]
      refine share_times_count _ _ ?_ ?_
      · rw [hd, hli, fallbackRecords_outside (-1) _ nm.Nodes 0 (Or.inl (by simp)), List.length_map]
      · rw [hli, fallbackRecords_outside (-1) _ nm.Nodes 0 (Or.inl (by simp)), List.length_map]
        exact h1
    · intro hsmall
      have h0 : nm.Nodes = [] := by
        rcases hsmall with h0 | ⟨_, hex⟩
        · exact h0
        · exact absurd hex hloc
      rw [hc, h0]
      rfl

/-- C4 on scenario A: the three shares of one third add up to one. -/
theorem fallback_sum_witness :
    ((runIterate (mkIterator 10 [9] [[1], [9], [2], [3]] none) acceptAll 0).2.calls.map
      (fun c => c.1.value)).sum = 1 :=
  (fallback_sum (mkIterator 10 [9] [[1], [9], [2], [3]] none) acceptAll 0
    { Nodes := [[1], [9], [2], [3]].map (fun k => { PublicKey := k }) }
    trivial (fun _ => rfl) (fun _ _ => rfl)).1 (Or.inl (by decide))

/-- C4 fails as stated: on the empty roster, and on the roster whose only member is the
local peer, the run succeeds with no record, so the values add up to zero. -/
theorem fallback_sum_empty_roster :
    (runIterate (mkIterator 10 [9] [] none) acceptAll 0).1 = none ∧
      ((runIterate (mkIterator 10 [9] [] none) acceptAll 0).2.calls.map
        (fun c => c.1.value)).sum ≠ 1 ∧
      (runIterate (mkIterator 10 [9] [[9]] none) acceptAll 0).1 = none ∧
      ((runIterate (mkIterator 10 [9] [[9]] none) acceptAll 0).2.calls.map
        (fun c => c.1.value)).sum ≠ 1 := by
  have h0 : (runIterate (mkIterator 10 [9] [] none) acceptAll 0).2.calls = [] := rfl
  have h1 : (runIterate (mkIterator 10 [9] [[9]] none) acceptAll 0).2.calls = [] := rfl
  refine ⟨rfl, ?_, rfl, ?_⟩
  · rw [h0]; simp
  · rw [h1]; simp

/-- C5: when the accumulator is there and its iteration does not report NoPositiveTrust,
the run of `Iterate` is the accumulator's iteration and nothing else: the same records in
the same order reach the handler, the result is the accumulator's result, the network map
source is not asked and no fallback record is handed out. -/
theorem recorded_path {ω : Type} (it : localTrustIterator ω) (h : TrustHandler ω) (w : ω)
    (hes : it.epochStorage.isSome = true)
    (hrep : errorsIs (runAccumulator it h w).1 Error.ErrNoPositiveTrust = false) :
    (runIterate it h w).2.calls = (runAccumulator it h w).2.calls ∧
      (runIterate it h w).1 = (runAccumulator it h w).1 ∧
      (runIterate it h w).2.world = (runAccumulator it h w).2.world ∧
      (runIterate it h w).2.queries = [] := by
  have he := runIterate_eq it h w
  rw [if_pos ⟨hes, hrep⟩] at he
  rw [he]
  exact ⟨rfl, rfl, rfl, runAccumulator_queries it h w⟩

/-- Scenario B for C5: the accumulator of epoch 5 holds 7/10 for peer A and 3/10 for peer B;
these two records and no other reach the handler. -/
theorem recorded_path_witness :
    (runAccumulator (mkIterator 5 [9] [[1], [9], [2], [3]]
        (some (EpochTrustValueStorage.ofRecords
          [{ peer := { Bytes := [1] }, value := 7 / 10 },
           { peer := { Bytes := [2] }, value := 3 / 10 }]))) acceptAll 0).2.calls =
        [({ peer := { Bytes := [1] }, value := 7 / 10 }, none),
         ({ peer := { Bytes := [2] }, value := 3 / 10 }, none)] ∧
      ((runIterate (mkIterator 5 [9] [[1], [9], [2], [3]]
        (some (EpochTrustValueStorage.ofRecords
          [{ peer := { Bytes := [1] }, value := 7 / 10 },
           { peer := { Bytes := [2] }, value := 3 / 10 }]))) acceptAll 0).2.calls =
        (runAccumulator (mkIterator 5 [9] [[1], [9], [2], [3]]
        (some (EpochTrustValueStorage.ofRecords
          [{ peer := { Bytes := [1] }, value := 7 / 10 },
           { peer := { Bytes := [2] }, value := 3 / 10 }]))) acceptAll 0).2.calls ∧
      (runIterate (mkIterator 5 [9] [[1], [9], [2], [3]]
        (some (EpochTrustValueStorage.ofRecords
          [{ peer := { Bytes := [1] }, value := 7 / 10 },
           { peer := { Bytes := [2] }, value := 3 / 10 }]))) acceptAll 0).1 =
        (runAccumulator (mkIterator 5 [9] [[1], [9], [2], [3]]
        (some (EpochTrustValueStorage.ofRecords
          [{ peer := { Bytes := [1] }, value := 7 / 10 },
           { peer := { Bytes := [2] }, value := 3 / 10 }]))) acceptAll 0).1 ∧
      (runIterate (mkIterator 5 [9] [[1], [9], [2], [3]]
        (some (EpochTrustValueStorage.ofRecords
          [{ peer := { Bytes := [1] }, value := 7 / 10 },
           { peer := { Bytes := [2] }, value := 3 / 10 }]))) acceptAll 0).2.world =
        (runAccumulator (mkIterator 5 [9] [[1], [9], [2], [3]]
        (some (EpochTrustValueStorage.ofRecords
          [{ peer := { Bytes := [1] }, value := 7 / 10 },
           { peer := { Bytes := [2] }, value := 3 / 10 }]))) acceptAll 0).2.world ∧
      (runIterate (mkIterator 5 [9] [[1], [9], [2], [3]]
        (some (EpochTrustValueStorage.ofRecords
          [{ peer := { Bytes := [1] }, value := 7 / 10 },
           { peer := { Bytes := [2] }, value := 3 / 10 }]))) acceptAll 0).2.queries = []) :=
  ⟨rfl, recorded_path (mkIterator 5 [9] [[1], [9], [2], [3]]
        (some (EpochTrustValueStorage.ofRecords
          [{ peer := { Bytes := [1] }, value := 7 / 10 },
           { peer := { Bytes := [2] }, value := 3 / 10 }]))) acceptAll 0 rfl rfl⟩

/-- C6, as the code has it: for an accumulator that is absent or hands out the records it
holds (reporting NoPositiveTrust itself only when it holds none) and a handler none of whose
errors is or wraps ErrNoPositiveTrust, either the accumulator step passed no record to the
handler, or the run is the accumulator step alone: the network map source is not asked and
no fallback record follows the recorded ones. -/
theorem no_mixing {ω : Type} (it : localTrustIterator ω) (h : TrustHandler ω) (w : ω)
    (acc : Option (List Trust))
    (hes : it.epochStorage = acc.map EpochTrustValueStorage.ofRecords)
    (hh : ∀ t w e, (h t w).1 = some e → e.Is Error.ErrNoPositiveTrust = false) :
    (runAccumulator it h w).2.calls = [] ∨
      ((runIterate it h w).2.calls = (runAccumulator it h w).2.calls ∧
        (runIterate it h w).1 = (runAccumulator it h w).1 ∧
        (runIterate it h w).2.queries = []) := by
  cases acc with
  | none =>
      left
      simp only [Option.map_none'] at hes
      simp [runAccumulator, hes]
  | some rs =>
      simp only [Option.map_some'] at hes
      cases rs with
      | nil =>
          left
          simp [runAccumulator, hes, EpochTrustValueStorage.ofRecords,
            EpochTrustValueStorage.Iterate]
      | cons t rest =>
          right
          have hrep : errorsIs (runAccumulator it h w).1 Error.ErrNoPositiveTrust = false := by
            simp only [runAccumulator, hes, EpochTrustValueStorage.ofRecords]
            exact handOut_result h hh (t :: rest) _
          have he := runIterate_eq it h w
          rw [if_pos ⟨by simp [hes], hrep⟩] at he
          rw [he]
          exact ⟨rfl, rfl, runAccumulator_queries it h w⟩

/-- C6 on scenario B with a handler that fails with a foreign error on its second call. -/
theorem no_mixing_witness :
    (runAccumulator (mkIterator 5 [9] [[1], [9]]
        (some (EpochTrustValueStorage.ofRecords
          [{ peer := { Bytes := [1] }, value := 7 / 10 },
           { peer := { Bytes := [2] }, value := 3 / 10 }]))) (failOnCall 2 (Error.other 7)) 0).2.calls
        = [] ∨
      ((runIterate (mkIterator 5 [9] [[1], [9]]
        (some (EpochTrustValueStorage.ofRecords
          [{ peer := { Bytes := [1] }, value := 7 / 10 },
           { peer := { Bytes := [2] }, value := 3 / 10 }]))) (failOnCall 2 (Error.other 7)) 0).2.calls
        = (runAccumulator (mkIterator 5 [9] [[1], [9]]
        (some (EpochTrustValueStorage.ofRecords
          [{ peer := { Bytes := [1] }, value := 7 / 10 },
           { peer := { Bytes := [2] }, value := 3 / 10 }]))) (failOnCall 2 (Error.other 7)) 0).2.calls ∧
        (runIterate (mkIterator 5 [9] [[1], [9]]
        (some (EpochTrustValueStorage.ofRecords
          [{ peer := { Bytes := [1] }, value := 7 / 10 },
           { peer := { Bytes := [2] }, value := 3 / 10 }]))) (failOnCall 2 (Error.other 7)) 0).1
        = (runAccumulator (mkIterator 5 [9] [[1], [9]]
        (some (EpochTrustValueStorage.ofRecords
          [{ peer := { Bytes := [1] }, value := 7 / 10 },
           { peer := { Bytes := [2] }, value := 3 / 10 }]))) (failOnCall 2 (Error.other 7)) 0).1 ∧
        (runIterate (mkIterator 5 [9] [[1], [9]]
        (some (EpochTrustValueStorage.ofRecords
          [{ peer := { Bytes := [1] }, value := 7 / 10 },
           { peer := { Bytes := [2] }, value := 3 / 10 }]))) (failOnCall 2 (Error.other 7)) 0).2.queries
        = []) :=
  no_mixing (mkIterator 5 [9] [[1], [9]]
        (some (EpochTrustValueStorage.ofRecords
          [{ peer := { Bytes := [1] }, value := 7 / 10 },
           { peer := { Bytes := [2] }, value := 3 / 10 }]))) (failOnCall 2 (Error.other 7)) 0
    (some [{ peer := { Bytes := [1] }, value := 7 / 10 },
           { peer := { Bytes := [2] }, value := 3 / 10 }]) rfl
    (by
      intro t n e he
      by_cases hn : n + 1 = 2
      · simp only [failOnCall, hn, if_true, Option.some.injEq] at he
        rw [← he]
        rfl
      · simp [failOnCall, hn] at he)

/-- C6 fails as stated: the accumulator of epoch 5 holds one record, the handler answers it
with ErrNoPositiveTrust, the accumulator returns that error, and `Iterate` takes it for an
epoch without trust: the network map is fetched and a fallback record follows the recorded
one in the same run. -/
theorem recorded_then_fallback :
    (runAccumulator (mkIterator 5 [9] [[1], [9]]
        (some (EpochTrustValueStorage.ofRecords [{ peer := { Bytes := [1] }, value := 7 / 10 }])))
        (failOnCall 1 Error.ErrNoPositiveTrust) 0).2.calls =
        [({ peer := { Bytes := [1] }, value := 7 / 10 }, some Error.ErrNoPositiveTrust)] ∧
      (runIterate (mkIterator 5 [9] [[1], [9]]
        (some (EpochTrustValueStorage.ofRecords [{ peer := { Bytes := [1] }, value := 7 / 10 }])))
        (failOnCall 1 Error.ErrNoPositiveTrust) 0).2.calls =
        [({ peer := { Bytes := [1] }, value := 7 / 10 }, some Error.ErrNoPositiveTrust),
         ({ peer := { Bytes := [1] }, value := TrustOne.Div (TrustValueFromInt 1) }, none)] ∧
      (runIterate (mkIterator 5 [9] [[1], [9]]
        (some (EpochTrustValueStorage.ofRecords [{ peer := { Bytes := [1] }, value := 7 / 10 }])))
        (failOnCall 1 Error.ErrNoPositiveTrust) 0).2.queries = [5] ∧
      (runIterate (mkIterator 5 [9] [[1], [9]]
        (some (EpochTrustValueStorage.ofRecords [{ peer := { Bytes := [1] }, value := 7 / 10 }])))
        (failOnCall 1 Error.ErrNoPositiveTrust) 0).1 = none ∧
      ¬ ((runAccumulator (mkIterator 5 [9] [[1], [9]]
        (some (EpochTrustValueStorage.ofRecords [{ peer := { Bytes := [1] }, value := 7 / 10 }])))
        (failOnCall 1 Error.ErrNoPositiveTrust) 0).2.calls = [] ∨
        (runIterate (mkIterator 5 [9] [[1], [9]]
        (some (EpochTrustValueStorage.ofRecords [{ peer := { Bytes := [1] }, value := 7 / 10 }])))
        (failOnCall 1 Error.ErrNoPositiveTrust) 0).2.queries = []) := by
  refine ⟨rfl, rfl, rfl, rfl, ?_⟩
  have h1 : (runAccumulator (mkIterator 5 [9] [[1], [9]]
        (some (EpochTrustValueStorage.ofRecords [{ peer := { Bytes := [1] }, value := 7 / 10 }])))
        (failOnCall 1 Error.ErrNoPositiveTrust) 0).2.calls =
        [({ peer := { Bytes := [1] }, value := 7 / 10 }, some Error.ErrNoPositiveTrust)] := rfl
  have h2 : (runIterate (mkIterator 5 [9] [[1], [9]]
        (some (EpochTrustValueStorage.ofRecords [{ peer := { Bytes := [1] }, value := 7 / 10 }])))
        (failOnCall 1 Error.ErrNoPositiveTrust) 0).2.queries = [5] := rfl
  rw [h1, h2]
  simp

/-- C7: in the fallback path, for every roster and every handler, if the handler fails with
`e` on its call number `k` (counted from one), then `Iterate` returns exactly `e`, the
handler has been called exactly `k` times, and the records it saw are the first `k` fallback
records in roster order: nothing after the failing entry is handed out. -/
theorem fallback_fail_fast {ω : Type} (it : localTrustIterator ω) (h : TrustHandler ω) (w : ω)
    (nm : Netmap) (hno : NoRecordedTrust it) (hsrc : SourceGives it nm)
    (k : Nat) (t : Trust) (e : Error) (hk : 1 ≤ k)
    (hfail : (runIterate it h w).2.calls[k - 1]? = some (t, some e)) :
    (runIterate it h w).1 = some e ∧
      (runIterate it h w).2.calls.length = k ∧
      (runIterate it h w).2.calls.map Prod.fst =
        (fallbackRecords (findLocalIndex it.storage.localKey nm.Nodes 0 (-1))
          (TrustOne.Div (TrustValueFromInt
            (fallbackDivisor (findLocalIndex it.storage.localKey nm.Nodes 0 (-1)) nm.Nodes)))
          nm.Nodes 0).take k := by
  have hf := runIterate_failFast it h w nm hno hsrc
  obtain ⟨h1, h2⟩ := hf.failure_is_last (k - 1) t e hfail
  have h3 : (runIterate it h w).2.calls.length = k := by omega
  refine ⟨h1, h3, ?_⟩
  have h4 := hf.map_fst
  rw [h3] at h4
  exact h4

/-- Scenario C for C7: on scenario A a handler that fails on the second record it is given
is called exactly twice, and `Iterate` returns its error. -/
theorem fallback_fail_fast_witness :
    (runIterate (mkIterator 10 [9] [[1], [9], [2], [3]] none)
        (failOnCall 2 (Error.other 7)) 0).1 = some (Error.other 7) ∧
      (runIterate (mkIterator 10 [9] [[1], [9], [2], [3]] none)
        (failOnCall 2 (Error.other 7)) 0).2.calls.length = 2 ∧
      (runIterate (mkIterator 10 [9] [[1], [9], [2], [3]] none)
        (failOnCall 2 (Error.other 7)) 0).2.calls.map Prod.fst =
        (fallbackRecords
          (findLocalIndex (mkIterator 10 [9] [[1], [9], [2], [3]] none).storage.localKey
            (Netmap.mk ([[1], [9], [2], [3]].map (fun k => { PublicKey := k }))).Nodes 0 (-1))
          (TrustOne.Div (TrustValueFromInt
            (fallbackDivisor
              (findLocalIndex (mkIterator 10 [9] [[1], [9], [2], [3]] none).storage.localKey
                (Netmap.mk ([[1], [9], [2], [3]].map (fun k => { PublicKey := k }))).Nodes 0 (-1))
              (Netmap.mk ([[1], [9], [2], [3]].map (fun k => { PublicKey := k }))).Nodes)))
          (Netmap.mk ([[1], [9], [2], [3]].map (fun k => { PublicKey := k }))).Nodes 0).take 2 :=
  fallback_fail_fast (mkIterator 10 [9] [[1], [9], [2], [3]] none)
    (failOnCall 2 (Error.other 7)) 0
    { Nodes := [[1], [9], [2], [3]].map (fun k => { PublicKey := k }) }
    trivial (fun _ => rfl) 2
    { peer := { Bytes := [2] }, value := TrustOne.Div (TrustValueFromInt 3) } (Error.other 7)
    (by decide) rfl

/-- C8: when a run reaches the fallback path (the accumulator is absent, or its iteration
ends in an error that is or wraps ErrNoPositiveTrust) and the network map source fails for
the epoch with `err`, `Iterate` returns exactly `err` and the handler gets no record beyond
those of the accumulator step: no fallback record is handed out. -/
theorem roster_fault {ω : Type} (it : localTrustIterator ω) (h : TrustHandler ω) (w : ω)
    (err : Error)
    (hfb : it.epochStorage.isSome = false ∨
      errorsIs (runAccumulator it h w).1 Error.ErrNoPositiveTrust = true)
    (hsrc : SourceFails it err) :
    (runIterate it h w).1 = some err ∧
      (runIterate it h w).2.calls = (runAccumulator it h w).2.calls ∧
      (runIterate it h w).2.queries = [it.ctx.Epoch] := by
  have he := runIterate_eq it h w
  have hneg : ¬ (it.epochStorage.isSome = true ∧
      errorsIs (runAccumulator it h w).1 Error.ErrNoPositiveTrust = false) := by
    rintro ⟨h1, h2⟩
    rcases hfb with h3 | h3
    · rw [h3] at h1; exact absurd h1 (by decide)
    · rw [h3] at h2; exact absurd h2 (by decide)
  rw [if_neg hneg, uniformFallback_error it h _ err hsrc] at he
  rw [he]
  exact ⟨rfl, rfl, by simp [runAccumulator_queries it h w]⟩

/-- C8 on an iterator without accumulator whose network map source fails. -/
theorem roster_fault_witness :
    (runIterate
        brokenSourceIterator acceptAll 0).1 = some (Error.other 3) ∧
      (runIterate
        brokenSourceIterator acceptAll 0).2.calls =
        (runAccumulator
        brokenSourceIterator acceptAll 0).2.calls ∧
      (runIterate
        brokenSourceIterator acceptAll 0).2.queries =
        [brokenSourceIterator.ctx.Epoch] :=
  roster_fault
    brokenSourceIterator acceptAll 0 (Error.other 3)
    (Or.inl rfl) (fun _ => rfl)

/-- C9: `InitIterator` fails exactly when `DataForEpoch` for the epoch of the context returns
an error that is not ErrNoPositiveTrust (in the sense of `errors.Is`); it then returns that
very error and no iterator. When `DataForEpoch` returns no error or ErrNoPositiveTrust, it
returns no error and an iterator bound to the same context, the same storage and the
accumulator that `DataForEpoch` gave. -/
theorem initIterator_outcome {ω : Type} (s : localTrustStorage ω) (ctx : Context) :
    ((s.InitIterator ctx).2 ≠ none ↔
        ∃ e, (s.storage.DataForEpoch ctx.Epoch).2 = some e ∧
          e.Is Error.ErrNoPositiveTrust = false) ∧
      (∀ e, (s.storage.DataForEpoch ctx.Epoch).2 = some e →
          e.Is Error.ErrNoPositiveTrust = false →
          (s.InitIterator ctx).1.isNone = true ∧ (s.InitIterator ctx).2 = some e) ∧
      (((s.storage.DataForEpoch ctx.Epoch).2 = none ∨
          errorsIs (s.storage.DataForEpoch ctx.Epoch).2 Error.ErrNoPositiveTrust = true) →
        (s.InitIterator ctx).2 = none ∧
          ∃ it, (s.InitIterator ctx).1 = some it ∧ it.ctx = ctx ∧ it.storage = s ∧
            it.epochStorage = (s.storage.DataForEpoch ctx.Epoch).1) := by
  rcases hd : s.storage.DataForEpoch ctx.Epoch with ⟨es, err⟩
  cases err with
  | none => simp [localTrustStorage.InitIterator, hd, errorsIs]
  | some e =>
      cases hm : e.Is Error.ErrNoPositiveTrust <;>
        simp [localTrustStorage.InitIterator, hd, errorsIs, hm]

/-- C9 on a storage without accumulator for epoch 10: ErrNoPositiveTrust is absorbed. -/
theorem initIterator_outcome_witness :
    ((bareStorage.InitIterator { Epoch := 10 }).2 ≠ none ↔
        ∃ e, (bareStorage.storage.DataForEpoch (Context.mk 10).Epoch).2 = some e ∧
          e.Is Error.ErrNoPositiveTrust = false) ∧
      (∀ e, (bareStorage.storage.DataForEpoch (Context.mk 10).Epoch).2 = some e →
          e.Is Error.ErrNoPositiveTrust = false →
          (bareStorage.InitIterator { Epoch := 10 }).1.isNone = true ∧
            (bareStorage.InitIterator { Epoch := 10 }).2 = some e) ∧
      (((bareStorage.storage.DataForEpoch (Context.mk 10).Epoch).2 = none ∨
          errorsIs (bareStorage.storage.DataForEpoch (Context.mk 10).Epoch).2
            Error.ErrNoPositiveTrust = true) →
        (bareStorage.InitIterator { Epoch := 10 }).2 = none ∧
          ∃ it, (bareStorage.InitIterator { Epoch := 10 }).1 = some it ∧
            it.ctx = { Epoch := 10 } ∧ it.storage = bareStorage ∧
            it.epochStorage = (bareStorage.storage.DataForEpoch (Context.mk 10).Epoch).1) :=
  initIterator_outcome bareStorage { Epoch := 10 }

/-- C10, as the code has it: when the public keys of the roster are pairwise distinct, no
two records handed out in the uniform fallback carry the same peer identity, whatever the
handler does. -/
theorem fallback_peers_distinct {ω : Type} (it : localTrustIterator ω) (h : TrustHandler ω)
    (w : ω) (nm : Netmap) (hno : NoRecordedTrust it) (hsrc : SourceGives it nm)
    (hkeys : (nm.Nodes.map (fun nd => nd.PublicKey)).Nodup) :
    ((runIterate it h w).2.calls.map (fun c => c.1.peer)).Nodup := by
  have hf := (runIterate_failFast it h w nm hno hsrc).map_fst
  have hsub := fallbackRecords_sublist (findLocalIndex it.storage.localKey nm.Nodes 0 (-1))
    (TrustOne.Div (TrustValueFromInt
      (fallbackDivisor (findLocalIndex it.storage.localKey nm.Nodes 0 (-1)) nm.Nodes)))
    nm.Nodes 0
  have hbytes : (((runIterate it h w).2.calls.map Prod.fst).map (fun t => t.peer.Bytes)).Nodup := by
    rw [hf]
    exact (hkeys.sublist hsub).sublist ((List.take_sublist _ _).map _)
  have hpeers : (((runIterate it h w).2.calls.map (fun c => c.1.peer)).map
      (fun q => q.Bytes)).Nodup := by
    simpa [List.map_map, Function.comp_def] using hbytes
  exact List.Nodup.of_map _ hpeers

/-- C10 on scenario A, whose four keys are distinct. -/
theorem fallback_peers_distinct_witness :
    ((runIterate (mkIterator 10 [9] [[1], [9], [2], [3]] none) acceptAll 0).2.calls.map
      (fun c => c.1.peer)).Nodup :=
  fallback_peers_distinct (mkIterator 10 [9] [[1], [9], [2], [3]] none) acceptAll 0
    { Nodes := [[1], [9], [2], [3]].map (fun k => { PublicKey := k }) }
    trivial (fun _ => rfl) (by decide)

/-- C10 fails as stated: on a roster with the same foreign key at both positions, both
entries are handed out, so two records carry the same peer identity. -/
theorem fallback_repeats_duplicate_key :
    (runIterate (mkIterator 10 [9] [[1], [1]] none) acceptAll 0).2.calls =
        [({ peer := { Bytes := [1] }, value := TrustOne.Div (TrustValueFromInt 2) }, none),
         ({ peer := { Bytes := [1] }, value := TrustOne.Div (TrustValueFromInt 2) }, none)] ∧
      ¬ ((runIterate (mkIterator 10 [9] [[1], [1]] none) acceptAll 0).2.calls.map
          (fun c => c.1.peer)).Nodup := by
  have hc : (runIterate (mkIterator 10 [9] [[1], [1]] none) acceptAll 0).2.calls =
      [({ peer := { Bytes := [1] }, value := TrustOne.Div (TrustValueFromInt 2) }, none),
       ({ peer := { Bytes := [1] }, value := TrustOne.Div (TrustValueFromInt 2) }, none)] := rfl
  refine ⟨hc, ?_⟩
  rw [hc]
  simp

/-! ## The new-epoch trigger and further properties of the fallback -/

theorem fallbackRecords_length_divisor (localKey : Bytes) (p : TrustValue)
    (nodes : List NodeInfo) :
    ((fallbackRecords (findLocalIndex localKey nodes 0 (-1)) p nodes 0).length : Int) =
      fallbackDivisor (findLocalIndex localKey nodes 0 (-1)) nodes := by
  by_cases hloc : ∃ nd ∈ nodes, nd.PublicKey = localKey
  · have hr := findLocalIndex_present localKey nodes 0 (-1) hloc
    have hlen := fallbackRecords_length_inside (findLocalIndex localKey nodes 0 (-1)) p nodes 0
      (by simpa using hr.1) (by simpa using hr.2)
    rw [fallbackDivisor_present localKey nodes hloc]
    omega
  · have habs : ∀ nd ∈ nodes, nd.PublicKey ≠ localKey := by
      intro nd hnd hk
      exact hloc ⟨nd, hnd, hk⟩
    rw [fallbackDivisor_absent localKey nodes habs, findLocalIndex_absent localKey nodes 0 (-1) habs,
      fallbackRecords_outside (-1) p nodes 0 (Or.inl (by simp)), List.length_map]

theorem wrapping_pred (m e : Nat) (hm : 1 < m) (h1 : 1 ≤ e) (h2 : e < m) :
    (e + m - 1 % m) % m = e - 1 := by
  rw [Nat.mod_eq_of_lt hm]
  have h4 : e + m - 1 = (e - 1) + m := by omega
  rw [h4, Nat.add_mod_right, Nat.mod_eq_of_lt (by omega)]

/-- C11, as the code has it: for a new-epoch event with epoch number e, 1 ≤ e < 2^64, the
handler starts exactly one report, and its epoch is e - 1, an epoch before the open one. -/
theorem newEpoch_reports_previous (e : Nat) (h1 : 1 ≤ e) (h2 : e < 2 ^ 64) :
    newEpochHandler { EpochNumber := e } = [{ epoch := e - 1 }] ∧ e - 1 < e := by
  have hM : 1 < 2 ^ 64 := Nat.one_lt_two_pow (by decide)
  exact ⟨by simp only [newEpochHandler, uint64Sub, wrapping_pred (2 ^ 64) e hM h1 h2], by omega⟩

/-- C11 at the epoch number 5: one report, for epoch 4. -/
theorem newEpoch_reports_previous_witness :
    newEpochHandler { EpochNumber := 5 } = [{ epoch := 5 - 1 }] ∧ 5 - 1 < 5 :=
  newEpoch_reports_previous 5 (by decide) (by decide)

/-- C11 fails as stated at the epoch number zero: the subtraction wraps around and the
one report that is started is for epoch 2^64 - 1, which is not before the open epoch. -/
theorem newEpoch_zero_wraps :
    newEpochHandler { EpochNumber := 0 } = [{ epoch := 18446744073709551615 }] ∧
      ¬ (∀ prm ∈ newEpochHandler { EpochNumber := 0 }, prm.epoch < 0) := by
  have h : newEpochHandler { EpochNumber := 0 } = [{ epoch := 18446744073709551615 }] := by
    decide
  refine ⟨h, ?_⟩
  rw [h]
  simp

/-- C12: in the uniform fallback every record handed to the handler has a value between
zero and one, for every roster and every handler; and whenever a fallback record is handed
out, the divisor given to `TrustValueFromInt` is at least one. -/
theorem fallback_value_range {ω : Type} (it : localTrustIterator ω) (h : TrustHandler ω)
    (w : ω) (nm : Netmap) (hno : NoRecordedTrust it) (hsrc : SourceGives it nm) :
    (∀ c ∈ (runIterate it h w).2.calls, 0 ≤ c.1.value ∧ c.1.value ≤ 1) ∧
      ((runIterate it h w).2.calls ≠ [] →
        1 ≤ fallbackDivisor (findLocalIndex it.storage.localKey nm.Nodes 0 (-1)) nm.Nodes) := by
  have hdiv : ∀ c ∈ (runIterate it h w).2.calls,
      1 ≤ fallbackDivisor (findLocalIndex it.storage.localKey nm.Nodes 0 (-1)) nm.Nodes := by
    intro c hc
    have hm := mem_calls_fallbackRecords it h w nm hno hsrc c hc
    have hpos := List.length_pos_of_mem hm
    have hl := fallbackRecords_length_divisor it.storage.localKey
      (TrustOne.Div (TrustValueFromInt
        (fallbackDivisor (findLocalIndex it.storage.localKey nm.Nodes 0 (-1)) nm.Nodes)))
      nm.Nodes
    omega
  constructor
  · intro c hc
    have hd := hdiv c hc
    have hv := fallbackRecords_value _ _ _ _ c.1 (mem_calls_fallbackRecords it h w nm hno hsrc c hc)
    rw [hv]
    have hq : (1 : ℚ) ≤
        ((fallbackDivisor (findLocalIndex it.storage.localKey nm.Nodes 0 (-1)) nm.Nodes : Int) : ℚ) := by
      exact_mod_cast hd
    simp only [TrustOne, TrustValue.Div, TrustValueFromInt]
    constructor
    · positivity
    · rw [div_le_one (by linarith)]
      exact hq
  · intro hne
    obtain ⟨c, hc⟩ := List.exists_mem_of_ne_nil _ hne
    exact hdiv c hc

/-- C12 on scenario A with a handler that fails on its second call. -/
theorem fallback_value_range_witness :
    (∀ c ∈ (runIterate (mkIterator 10 [9] [[1], [9], [2], [3]] none)
        (failOnCall 2 (Error.other 7)) 0).2.calls, 0 ≤ c.1.value ∧ c.1.value ≤ 1) ∧
      ((runIterate (mkIterator 10 [9] [[1], [9], [2], [3]] none)
        (failOnCall 2 (Error.other 7)) 0).2.calls ≠ [] →
        1 ≤ fallbackDivisor
          (findLocalIndex (mkIterator 10 [9] [[1], [9], [2], [3]] none).storage.localKey
            (Netmap.mk ([[1], [9], [2], [3]].map (fun k => { PublicKey := k }))).Nodes 0 (-1))
          (Netmap.mk ([[1], [9], [2], [3]].map (fun k => { PublicKey := k }))).Nodes) :=
  fallback_value_range (mkIterator 10 [9] [[1], [9], [2], [3]] none)
    (failOnCall 2 (Error.other 7)) 0
    { Nodes := [[1], [9], [2], [3]].map (fun k => { PublicKey := k }) }
    trivial (fun _ => rfl)

theorem findLocalIndex_last (localKey : Bytes) :
    ∀ (nodes : List NodeInfo) (i : Nat) (acc : Int) (j : Nat),
      (nodes[j]?).map (fun nd => nd.PublicKey) = some localKey →
      (∀ m, j < m → (nodes[m]?).map (fun nd => nd.PublicKey) ≠ some localKey) →
        findLocalIndex localKey nodes i acc = (i : Int) + j := by
  intro nodes
  induction nodes with
  | nil => intro i acc j hj _; simp at hj
  | cons nd rest ih =>
      intro i acc j hj hlast
      cases j with
      | zero =>
          have hk : nd.PublicKey = localKey := by simpa using hj
          have hrest : ∀ x ∈ rest, x.PublicKey ≠ localKey := by
            intro x hx hxk
            obtain ⟨m, hm, hget⟩ := List.getElem_of_mem hx
            have := hlast (m + 1) (by omega)
            simp [List.getElem?_eq_getElem hm, hget, hxk] at this
          simp [findLocalIndex, hk, findLocalIndex_absent localKey rest (i + 1) (i : Int) hrest]
      | succ j =>
          have h1 := ih (i + 1) (if nd.PublicKey = localKey then (i : Int) else acc) j
            (by simpa using hj)
            (by
              intro m hm
              have := hlast (m + 1) (by omega)
              simpa using this)
          simp only [findLocalIndex, h1]
          push_cast
          ring

theorem fallbackRecords_eraseIdx (p : TrustValue) :
    ∀ (nodes : List NodeInfo) (i j : Nat), j < nodes.length →
      fallbackRecords ((i : Int) + j) p nodes i =
        (nodes.eraseIdx j).map (fun nd => { peer := PeerIDFromBytes nd.PublicKey, value := p }) := by
  intro nodes
  induction nodes with
  | nil => intro i j hj; simp at hj
  | cons nd rest ih =>
      intro i j hj
      cases j with
      | zero =>
          have hout := fallbackRecords_outside (i : Int) p rest (i + 1) (Or.inl (by push_cast; omega))
          simp [fallbackRecords, hout]
      | succ j =>
          have hne : ¬ ((i : Int) = (i : Int) + ((j + 1 : Nat) : Int)) := by push_cast; omega
          have h1 := ih (i + 1) j (by simpa using hj)
          have h2 : ((i : Int) + ((j + 1 : Nat) : Int)) = (((i + 1 : Nat) : Int) + (j : Int)) := by
            push_cast; ring
          rw [h2] at hne
          simp only [fallbackRecords, h2, hne, if_false, h1, List.eraseIdx_cons_succ, List.map_cons]

/-- C18: in a fallback run with the roster retrieved for the epoch of the iterator and a
handler that never fails, the records handed to the handler are, in roster order, the
roster without the entry at the largest index whose key equals the local key (the whole
roster when no key equals it), every entry turned into a record with its public key as peer
and the value `TrustOne.Div(TrustValueFromInt(d))`, d = N-1 in the first case and d = N in
the second; the handler and the world have no part in it. -/
theorem fallback_reference {ω : Type} (it : localTrustIterator ω) (h : TrustHandler ω)
    (w : ω) (nm : Netmap) (hno : NoRecordedTrust it) (hsrc : SourceGives it nm)
    (hh : NeverFails h) :
    ((∀ nd ∈ nm.Nodes, nd.PublicKey ≠ it.storage.localKey) →
        (runIterate it h w).2.calls.map Prod.fst = nm.Nodes.map (fun nd =>
          { peer := PeerIDFromBytes nd.PublicKey
            value := TrustOne.Div (TrustValueFromInt (nm.Nodes.length : Int)) })) ∧
      (∀ j : Nat, (nm.Nodes[j]?).map (fun nd => nd.PublicKey) = some it.storage.localKey →
        (∀ m, j < m → (nm.Nodes[m]?).map (fun nd => nd.PublicKey) ≠ some it.storage.localKey) →
        (runIterate it h w).2.calls.map Prod.fst = (nm.Nodes.eraseIdx j).map (fun nd =>
          { peer := PeerIDFromBytes nd.PublicKey
            value := TrustOne.Div (TrustValueFromInt ((nm.Nodes.length : Int) - 1)) })) := by
  obtain ⟨_, hc⟩ := runIterate_neverFails it h w nm hno hsrc hh
  have hfst : (runIterate it h w).2.calls.map Prod.fst =
      fallbackRecords (findLocalIndex it.storage.localKey nm.Nodes 0 (-1))
        (TrustOne.Div (TrustValueFromInt
          (fallbackDivisor (findLocalIndex it.storage.localKey nm.Nodes 0 (-1)) nm.Nodes)))
        nm.Nodes 0 := by
    rw [hc, List.map_map]
    simp [Function.comp_def]
  constructor
  · intro habs
    rw [hfst, fallbackDivisor_absent it.storage.localKey nm.Nodes habs,
      findLocalIndex_absent it.storage.localKey nm.Nodes 0 (-1) habs,
      fallbackRecords_outside (-1) _ nm.Nodes 0 (Or.inl (by simp))]
  · intro j hj hlast
    have hjlt : j < nm.Nodes.length := by
      by_contra hge
      rw [List.getElem?_eq_none (by omega)] at hj
      simp at hj
    have hloc : ∃ nd ∈ nm.Nodes, nd.PublicKey = it.storage.localKey := by
      refine ⟨nm.Nodes[j], List.getElem_mem _, ?_⟩
      simpa [List.getElem?_eq_getElem hjlt] using hj
    have hli := findLocalIndex_last it.storage.localKey nm.Nodes 0 (-1) j hj hlast
    rw [hfst, fallbackDivisor_present it.storage.localKey nm.Nodes hloc, hli]
    exact fallbackRecords_eraseIdx _ nm.Nodes 0 j hjlt

/-- C18 on scenario A: the local key is at position 1 and nowhere after it. -/
theorem fallback_reference_witness :
    (runIterate (mkIterator 10 [9] [[1], [9], [2], [3]] none) acceptAll 0).2.calls.map Prod.fst =
      ((Netmap.mk ([[1], [9], [2], [3]].map (fun k => { PublicKey := k }))).Nodes.eraseIdx 1).map
        (fun nd =>
          { peer := PeerIDFromBytes nd.PublicKey
            value := TrustOne.Div (TrustValueFromInt
              (((Netmap.mk ([[1], [9], [2], [3]].map
                (fun k => { PublicKey := k }))).Nodes.length : Int) - 1)) }) :=
  (fallback_reference (mkIterator 10 [9] [[1], [9], [2], [3]] none) acceptAll 0
    { Nodes := [[1], [9], [2], [3]].map (fun k => { PublicKey := k }) }
    trivial (fun _ => rfl) (fun _ _ => rfl)).2 1 rfl
    (by
      intro m hm
      match m, hm with
      | 2, _ => decide
      | 3, _ => decide
      | (n + 4), _ => simp)

/-! ## The controller and the sink -/

theorem accumulator_onlyWrites {ω : Type} (wr : Writer ω) :
    ∀ (es : EpochTrustValueStorage) (s : Sink ω),
      ∃ ws, (es.Iterate (observeWriter wr).Write s).2.events = s.events ++ ws ∧
        ∀ ev ∈ ws, ev.isWrite = true := by
  intro es
  induction es with
  | ret err => intro s; exact ⟨[], by simp [EpochTrustValueStorage.Iterate], by simp⟩
  | call t next ih =>
      intro s
      rcases hc : wr.Write t s.world with ⟨r, w1⟩
      obtain ⟨ws, h1, h2⟩ := ih r { world := w1, events := s.events ++ [SinkEvent.write t r] }
      refine ⟨SinkEvent.write t r :: ws, ?_, ?_⟩
      · simpa [EpochTrustValueStorage.Iterate, observeWriter, hc] using h1
      · intro ev hev
        rcases List.mem_cons.mp hev with rfl | hev
        · rfl
        · exact h2 ev hev

theorem emitLoop_onlyWrites {ω : Type} (wr : Writer ω) (localIndex : Int) (p : TrustValue) :
    ∀ (nodes : List NodeInfo) (i : Nat) (s : Sink ω),
      ∃ ws, (emitLoop (observeWriter wr).Write localIndex p nodes i s).2.events = s.events ++ ws ∧
        ∀ ev ∈ ws, ev.isWrite = true := by
  intro nodes
  induction nodes with
  | nil => intro i s; exact ⟨[], by simp [emitLoop], by simp⟩
  | cons nd rest ih =>
      intro i s
      by_cases hi : (i : Int) = localIndex
      · obtain ⟨ws, h1, h2⟩ := ih (i + 1) s
        exact ⟨ws, by simpa [emitLoop, hi] using h1, h2⟩
      · rcases hc : wr.Write { peer := PeerIDFromBytes nd.PublicKey, value := p } s.world with ⟨r, w1⟩
        cases r with
        | some e =>
            refine ⟨[SinkEvent.write { peer := PeerIDFromBytes nd.PublicKey, value := p } (some e)],
              ?_, ?_⟩
            · simp [emitLoop, hi, observeWriter, hc]
            · intro ev hev
              rw [List.mem_singleton] at hev
              rw [hev]
              rfl
        | none =>
            obtain ⟨ws, h1, h2⟩ := ih (i + 1)
              { world := w1
                events := s.events ++
                  [SinkEvent.write { peer := PeerIDFromBytes nd.PublicKey, value := p } none] }
            refine ⟨SinkEvent.write { peer := PeerIDFromBytes nd.PublicKey, value := p } none :: ws,
              ?_, ?_⟩
            · simpa [emitLoop, hi, observeWriter, hc] using h1
            · intro ev hev
              rcases List.mem_cons.mp hev with rfl | hev
              · rfl
              · exact h2 ev hev

theorem uniformFallback_onlyWrites {ω : Type} (wr : Writer ω) (it : localTrustIterator ω)
    (s : Sink ω) :
    ∃ ws, (it.overSink.uniformFallback (observeWriter wr).Write s).2.events = s.events ++ ws ∧
      ∀ ev ∈ ws, ev.isWrite = true := by
  rcases hq : it.storage.nmSrc it.ctx.Epoch s.world with ⟨r, w1⟩
  cases r with
  | error err =>
      exact ⟨[], by simp [localTrustIterator.uniformFallback, localTrustIterator.overSink,
        localTrustStorage.overSink, sinkSource, hq], by simp⟩
  | ok nm =>
      obtain ⟨ws, h1, h2⟩ := emitLoop_onlyWrites wr
        (findLocalIndex it.storage.localKey nm.Nodes 0 (-1))
        (TrustOne.Div (TrustValueFromInt
          (fallbackDivisor (findLocalIndex it.storage.localKey nm.Nodes 0 (-1)) nm.Nodes)))
        nm.Nodes 0 { world := w1, events := s.events }
      refine ⟨ws, ?_, h2⟩
      simpa [localTrustIterator.uniformFallback, localTrustIterator.overSink,
        localTrustStorage.overSink, sinkSource, hq] using h1

theorem iterate_onlyWrites {ω : Type} (wr : Writer ω) (it : localTrustIterator ω) (s : Sink ω) :
    ∃ ws, (it.overSink.Iterate (observeWriter wr).Write s).2.events = s.events ++ ws ∧
      ∀ ev ∈ ws, ev.isWrite = true := by
  rcases hes : it.epochStorage with _ | es
  · obtain ⟨ws, h1, h2⟩ := uniformFallback_onlyWrites wr it s
    refine ⟨ws, ?_, h2⟩
    simpa [localTrustIterator.Iterate, localTrustIterator.overSink, hes] using h1
  · obtain ⟨ws1, h1, h2⟩ := accumulator_onlyWrites wr es s
    cases hm : errorsIs (es.Iterate (observeWriter wr).Write s).1 Error.ErrNoPositiveTrust with
    | false =>
        refine ⟨ws1, ?_, h2⟩
        simpa [localTrustIterator.Iterate, localTrustIterator.overSink, hes, hm] using h1
    | true =>
        obtain ⟨ws2, h3, h4⟩ := uniformFallback_onlyWrites wr it
          (es.Iterate (observeWriter wr).Write s).2
        refine ⟨ws1 ++ ws2, ?_, ?_⟩
        · have h5 : (it.overSink.Iterate (observeWriter wr).Write s) =
              it.overSink.uniformFallback (observeWriter wr).Write
                (es.Iterate (observeWriter wr).Write s).2 := by
            simp [localTrustIterator.Iterate, localTrustIterator.overSink, hes, hm]
          rw [h5, h3, h1, List.append_assoc]
        · intro ev hev
          rcases List.mem_append.mp hev with hev | hev
          · exact h2 ev hev
          · exact h4 ev hev

theorem initIterator_overSink {ω : Type} (source : localTrustStorage ω) (ctx : Context) :
    source.overSink.InitIterator ctx =
      ((source.InitIterator ctx).1.map localTrustIterator.overSink, (source.InitIterator ctx).2) := by
  rcases hd : source.storage.DataForEpoch ctx.Epoch with ⟨es, err⟩
  cases err with
  | none =>
      simp [localTrustStorage.InitIterator, localTrustStorage.overSink, hd,
        localTrustIterator.overSink]
  | some e =>
      cases hm : errorsIs (some e) Error.ErrNoPositiveTrust <;>
        simp [localTrustStorage.InitIterator, localTrustStorage.overSink, hd,
          localTrustIterator.overSink, hm]

/-- C13: in every run of `Report` in which the target gave a writer, the sink sees the
`Write` calls of `Iterate` and then exactly one `Close`, after `Iterate` has returned and
whatever `Iterate` returned (success, handler error or fault of the iterator); when no
writer was obtained the sink sees nothing. -/
theorem report_closes_once {ω : Type} (source : localTrustStorage ω) (target : Target ω)
    (epoch : Nat) (w : ω) :
    (∀ it wr, source.InitIterator { Epoch := epoch } = (some it, none) →
        target { Epoch := epoch } = (some wr, none) →
        (∃ r, (runReport source target epoch w).2.events =
            (it.overSink.Iterate (observeWriter wr).Write { world := w, events := [] }).2.events ++
              [SinkEvent.close r]) ∧
          (∀ ev ∈ (it.overSink.Iterate (observeWriter wr).Write
              { world := w, events := [] }).2.events, ev.isWrite = true) ∧
          ((runReport source target epoch w).2.events.filter (fun ev => !ev.isWrite)).length = 1) ∧
      ((¬ ∃ it wr, source.InitIterator { Epoch := epoch } = (some it, none) ∧
          target { Epoch := epoch } = (some wr, none)) →
        (runReport source target epoch w).2.events = []) := by
  constructor
  · intro it wr hit hwr
    obtain ⟨ws, h1, h2⟩ := iterate_onlyWrites wr it { world := w, events := [] }
    rcases hrun : it.overSink.Iterate (observeWriter wr).Write { world := w, events := [] } with
      ⟨iterErr, s1⟩
    rcases hcl : wr.Close s1.world with ⟨closeErr, w2⟩
    have hev : (runReport source target epoch w).2.events = s1.events ++ [SinkEvent.close closeErr] := by
      simp only [runReport, Report, initIterator_overSink, hit, observeTarget, hwr,
        Option.map_some']
      rw [hrun]
      simp [observeWriter, hcl]
    rw [hrun] at h1
    simp only [List.nil_append] at h1
    have hall : ∀ ev ∈ s1.events, ev.isWrite = true := by
      rw [h1]
      exact h2
    refine ⟨⟨closeErr, hev⟩, hall, ?_⟩
    rw [hev, List.filter_append]
    have hnone : s1.events.filter (fun ev => !ev.isWrite) = [] := by
      rw [List.filter_eq_nil_iff]
      intro ev hmem
      simp [hall ev hmem]
    rw [hnone]
    rfl
  · intro hno
    rcases hit : source.InitIterator { Epoch := epoch } with ⟨oit, ierr⟩
    rcases hwr : target { Epoch := epoch } with ⟨owr, werr⟩
    cases oit with
    | none => simp [runReport, Report, initIterator_overSink, hit]
    | some it =>
        cases ierr with
        | some e => simp [runReport, Report, initIterator_overSink, hit]
        | none =>
            cases owr with
            | none => simp [runReport, Report, initIterator_overSink, hit, observeTarget, hwr]
            | some wr =>
                cases werr with
                | some e =>
                    simp [runReport, Report, initIterator_overSink, hit, observeTarget, hwr]
                | none =>
                    exact absurd ⟨it, wr, by rw [hit], by rw [hwr]⟩ hno

/-- C13 on scenario A with the logging sink of the node: three `Write` calls, then one
`Close`. -/
theorem report_closes_once_witness :
    (∃ r, (runReport scenarioStorage (scenarioStorage.asTarget listLogger) 10 []).2.events =
        (scenarioIterator.overSink.Iterate (observeWriter scenarioWriter).Write
          { world := [], events := [] }).2.events ++ [SinkEvent.close r]) ∧
      (∀ ev ∈ (scenarioIterator.overSink.Iterate (observeWriter scenarioWriter).Write
          { world := [], events := [] }).2.events, ev.isWrite = true) ∧
      ((runReport scenarioStorage (scenarioStorage.asTarget listLogger) 10 []).2.events.filter
        (fun ev => !ev.isWrite)).length = 1 :=
  (report_closes_once scenarioStorage (scenarioStorage.asTarget listLogger) 10 []).1
    scenarioIterator scenarioWriter rfl rfl

end Reputation

namespace ObjectService

theorem verifyEach_observed {ω : Type} (token : SessionToken) :
    ∀ (vs : List (Option (sessionTokenVerifier ω))) (i : Nat)
      (s : ω × List (Nat × Option TokenError)),
      ∃ cs, (verifyEach token (observeVerifiers i vs) s).2.2 = s.2 ++ cs ∧
        Pass (nonNilFrom i vs) cs (verifyEach token (observeVerifiers i vs) s).1 := by
  intro vs
  induction vs with
  | nil => intro i s; exact ⟨[], by simp [observeVerifiers, verifyEach], Pass.done⟩
  | cons v rest ih =>
      intro i s
      cases v with
      | none =>
          obtain ⟨cs, h1, h2⟩ := ih (i + 1) s
          exact ⟨cs, by simpa [observeVerifiers, verifyEach] using h1,
            by simpa [observeVerifiers, verifyEach, nonNilFrom] using h2⟩
      | some v =>
          rcases hc : v token s.1 with ⟨r, w1⟩
          cases r with
          | some e =>
              exact ⟨[(i, some e)], by simp [observeVerifiers, verifyEach, hc],
                by simpa [observeVerifiers, verifyEach, nonNilFrom, hc] using Pass.stop⟩
          | none =>
              obtain ⟨cs, h1, h2⟩ := ih (i + 1) (w1, s.2 ++ [(i, none)])
              exact ⟨(i, none) :: cs, by simpa [observeVerifiers, verifyEach, hc] using h1,
                by simpa [observeVerifiers, verifyEach, nonNilFrom, hc] using Pass.step h2⟩

theorem Pass.positions {ps : List Nat} {cs : List (Nat × Option TokenError)}
    {r : Option TokenError} (hp : Pass ps cs r) : cs.map Prod.fst = ps.take cs.length := by
  induction hp with
  | done => simp
  | step _ ih => simp [ih]
  | stop => simp

theorem Pass.rejection_is_last {ps : List Nat} {cs : List (Nat × Option TokenError)}
    {r : Option TokenError} (hp : Pass ps cs r) :
    ∀ (k i : Nat) (e : TokenError), cs[k]? = some (i, some e) → r = some e ∧ cs.length = k + 1 := by
  induction hp with
  | done => intro k i e hk; simp at hk
  | step _ ih =>
      intro k i e hk
      cases k with
      | zero => simp at hk
      | succ k =>
          have := ih k i e (by simpa using hk)
          exact ⟨this.1, by simp [this.2]⟩
  | stop =>
      intro k i e hk
      cases k with
      | zero =>
          simp at hk
          exact ⟨by rw [hk.2], by simp⟩
      | succ k => simp at hk

theorem Pass.accepted_iff {ps : List Nat} {cs : List (Nat × Option TokenError)}
    {r : Option TokenError} (hp : Pass ps cs r) :
    r = none ↔ cs = ps.map (fun i => (i, none)) := by
  induction hp with
  | done => simp
  | step _ ih => simp [ih]
  | stop => simp

theorem Pass.rejected_last {ps : List Nat} {cs : List (Nat × Option TokenError)}
    {r : Option TokenError} (hp : Pass ps cs r) :
    ∀ e, r = some e → ∃ i, cs.getLast? = some (i, some e) := by
  induction hp with
  | done => intro e he; simp at he
  | @step j qs ds q _ ih =>
      intro e he
      obtain ⟨i, hi⟩ := ih e he
      cases ds with
      | nil => simp at hi
      | cons d rest => exact ⟨i, by rw [List.getLast?_cons_cons]; exact hi⟩
  | @stop j qs e0 =>
      intro e he
      simp only [Option.some.injEq] at he
      subst he
      exact ⟨j, by simp⟩

theorem verifyEach_unobserved {ω : Type} (token : SessionToken) :
    ∀ (vs : List (Option (sessionTokenVerifier ω))) (i : Nat)
      (s : ω × List (Nat × Option TokenError)),
      (verifyEach token (observeVerifiers i vs) s).1 = (verifyEach token vs s.1).1 ∧
        (verifyEach token (observeVerifiers i vs) s).2.1 = (verifyEach token vs s.1).2 := by
  intro vs
  induction vs with
  | nil => intro i s; simp [observeVerifiers, verifyEach]
  | cons v rest ih =>
      intro i s
      cases v with
      | none => simpa [observeVerifiers, verifyEach] using ih (i + 1) s
      | some v =>
          rcases hc : v token s.1 with ⟨r, w1⟩
          cases r with
          | some e => simp [observeVerifiers, verifyEach, hc]
          | none => simpa [observeVerifiers, verifyEach, hc] using ih (i + 1) (w1, s.2 ++ [(i, none)])

theorem verifyEach_pure {ω : Type} (token : SessionToken) :
    ∀ (gs : List (Option (SessionToken → Option TokenError))) (w : ω),
      (verifyEach token (gs.map (Option.map pureVerifier)) w).1 =
        (gs.filterMap id).findSome? (fun g => g token) := by
  intro gs
  induction gs with
  | nil => intro w; simp [verifyEach]
  | cons g rest ih =>
      intro w
      cases g with
      | none => simpa [verifyEach] using ih w
      | some g =>
          cases hg : g token with
          | some e => simp [verifyEach, pureVerifier, hg]
          | none => simpa [verifyEach, pureVerifier, hg] using ih w

/-- C15: for every slice of verifiers (nil entries allowed), every token and every world,
`complexTokenVerifier.verifySessionToken` calls the verifiers that are not nil in slice
order and no nil entry; the first rejection ends the run, is the last call made and is the
error returned, so no verifier after it is called; the result is nil exactly when every
verifier that is not nil was called and accepted (so for the empty slice). For checks that
do not depend on the world the result is the error of the first check, among those not
nil, that rejects the token. Observing the calls changes neither result nor world. -/
theorem complex_verifier_first_rejection {ω : Type} (s : complexTokenVerifier ω)
    (token : SessionToken) (w : ω) :
    ((runVerify s token w).1 = (s.verifySessionToken token w).1 ∧
        (runVerify s token w).2.1 = (s.verifySessionToken token w).2) ∧
      (runVerify s token w).2.2.map Prod.fst =
        (nonNilFrom 0 s.verifiers).take (runVerify s token w).2.2.length ∧
      (∀ (k i : Nat) (e : TokenError), (runVerify s token w).2.2[k]? = some (i, some e) →
        (runVerify s token w).1 = some e ∧ (runVerify s token w).2.2.length = k + 1) ∧
      (∀ e, (runVerify s token w).1 = some e →
        ∃ i, (runVerify s token w).2.2.getLast? = some (i, some e)) ∧
      ((runVerify s token w).1 = none ↔
        (runVerify s token w).2.2 = (nonNilFrom 0 s.verifiers).map (fun i => (i, none))) ∧
      (∀ gs : List (Option (SessionToken → Option TokenError)),
        s.verifiers = gs.map (Option.map pureVerifier) →
        (s.verifySessionToken token w).1 = (gs.filterMap id).findSome? (fun g => g token)) := by
  obtain ⟨cs, h1, h2⟩ := verifyEach_observed token s.verifiers 0 (w, [])
  have hj : (runVerify s token w).2.2 = cs := by
    simpa [runVerify, complexTokenVerifier.verifySessionToken] using h1
  have hp : Pass (nonNilFrom 0 s.verifiers) (runVerify s token w).2.2 (runVerify s token w).1 := by
    rw [hj]
    exact h2
  refine ⟨?_, hp.positions, hp.rejection_is_last, hp.rejected_last, hp.accepted_iff, ?_⟩
  · exact verifyEach_unobserved token s.verifiers 0 (w, [])
  · intro gs hgs
    simp only [complexTokenVerifier.verifySessionToken, hgs]
    exact verifyEach_pure token gs w

/-- C15 on the sample slice: the verifiers at positions 1 and 3 are called, the rejection of
the one at position 3 is returned, and the one at position 4 is not called. -/
theorem complex_verifier_first_rejection_witness :
    (runVerify sampleVerifiers sampleToken ()).2.2 =
        [(1, none), (3, some (TokenError.other 1))] ∧
      ((runVerify sampleVerifiers sampleToken ()).1 = some (TokenError.other 1) ∧
        (runVerify sampleVerifiers sampleToken ()).2.2.length = 1 + 1) :=
  ⟨rfl, (complex_verifier_first_rejection sampleVerifiers sampleToken ()).2.2.1 1 3
    (TokenError.other 1) rfl⟩

/-- C17: for a token with creation epoch c and expiration epoch x and the current epoch n,
the epoch verifier returns errCreatedAfterExpiration when c > x, whatever n is; otherwise
errTokenExpired when n > x; otherwise nil. So the token is accepted exactly when c ≤ x and
n ≤ x, and a token that expires in the current epoch is still accepted. -/
theorem epochs_verifier_outcome (c x n payload : Nat) :
    (x < c →
        tokenEpochsVerifier.verifySessionToken { epochRecv := { Epoch := n } }
          { CreationEpoch := c, ExpirationEpoch := x, payload := payload } =
          some TokenError.errCreatedAfterExpiration) ∧
      (c ≤ x → x < n →
        tokenEpochsVerifier.verifySessionToken { epochRecv := { Epoch := n } }
          { CreationEpoch := c, ExpirationEpoch := x, payload := payload } =
          some TokenError.errTokenExpired) ∧
      (tokenEpochsVerifier.verifySessionToken { epochRecv := { Epoch := n } }
          { CreationEpoch := c, ExpirationEpoch := x, payload := payload } = none ↔
        c ≤ x ∧ n ≤ x) ∧
      (c ≤ n →
        tokenEpochsVerifier.verifySessionToken { epochRecv := { Epoch := n } }
          { CreationEpoch := c, ExpirationEpoch := n, payload := payload } = none) := by
  refine ⟨?_, ?_, ?_, ?_⟩
  · intro h
    simp [tokenEpochsVerifier.verifySessionToken, h]
  · intro h1 h2
    simp [tokenEpochsVerifier.verifySessionToken, Nat.not_lt.mpr h1, h2]
  · by_cases h1 : x < c
    · simp [tokenEpochsVerifier.verifySessionToken, h1]
    · by_cases h2 : x < n
      · simp [tokenEpochsVerifier.verifySessionToken, h1, h2]
      · simp [tokenEpochsVerifier.verifySessionToken, h1, h2]
        omega
  · intro h
    simp [tokenEpochsVerifier.verifySessionToken, Nat.not_lt.mpr h]

/-- C17 on three tokens in epoch 7: created after expiration, expired, expiring now. -/
theorem epochs_verifier_outcome_witness :
    tokenEpochsVerifier.verifySessionToken { epochRecv := { Epoch := 7 } }
        { CreationEpoch := 9, ExpirationEpoch := 8, payload := 0 } =
        some TokenError.errCreatedAfterExpiration ∧
      tokenEpochsVerifier.verifySessionToken { epochRecv := { Epoch := 7 } }
        { CreationEpoch := 3, ExpirationEpoch := 6, payload := 0 } =
        some TokenError.errTokenExpired ∧
      tokenEpochsVerifier.verifySessionToken { epochRecv := { Epoch := 7 } }
        { CreationEpoch := 3, ExpirationEpoch := 7, payload := 0 } = none :=
  ⟨(epochs_verifier_outcome 9 8 7 0).1 (by decide),
    (epochs_verifier_outcome 3 6 7 0).2.1 (by decide) (by decide),
    (epochs_verifier_outcome 3 7 7 0).2.2.2 (by decide)⟩

end ObjectService

namespace ShardService

/-- C16: `Shard.ToMoveIt` returns an error exactly when the mode of the shard is not
ModeReadWrite; the error is then ErrReadOnlyMode, the result is nil, the metabase operation
is not called and metabase and log stay as they were. In ModeReadWrite the metabase
operation is called once, with the address of the parameter, and the result is not nil with
a nil error whether that call fails or not; a failure only adds a debug line. -/
theorem toMoveIt_mode_gate {μ : Type} (metaToMoveIt : MetaToMoveIt μ) (s : Shard μ)
    (prm : ToMoveItPrm) :
    ((runToMoveIt metaToMoveIt s prm).1.2 ≠ none ↔ s.mode ≠ Mode.ModeReadWrite) ∧
      (s.mode ≠ Mode.ModeReadWrite →
        (runToMoveIt metaToMoveIt s prm).1 = (none, some ShardError.ErrReadOnlyMode) ∧
          (runToMoveIt metaToMoveIt s prm).2.metaBase = (s.metaBase, []) ∧
          (runToMoveIt metaToMoveIt s prm).2.log = s.log) ∧
      (s.mode = Mode.ModeReadWrite →
        (runToMoveIt metaToMoveIt s prm).1 = (some {}, none) ∧
          (runToMoveIt metaToMoveIt s prm).2.metaBase =
            ((metaToMoveIt s.metaBase prm.addr).2, [prm.addr]) ∧
          (runToMoveIt metaToMoveIt s prm).2.log =
            s.log ++ (metaToMoveIt s.metaBase prm.addr).1.toList) := by
  by_cases hm : s.mode = Mode.ModeReadWrite
  · rcases hc : metaToMoveIt s.metaBase prm.addr with ⟨r, mb⟩
    cases r with
    | some e => simp [runToMoveIt, Shard.ToMoveIt, observeMeta, hm, hc]
    | none => simp [runToMoveIt, Shard.ToMoveIt, observeMeta, hm, hc]
  · simp [runToMoveIt, Shard.ToMoveIt, hm]

/-- C16 on a shard in read-write mode whose metabase operation fails: a result, no error,
one call with the address 4. -/
theorem toMoveIt_mode_gate_witness :
    (runToMoveIt brokenMeta { mode := Mode.ModeReadWrite, metaBase := 0, log := [] }
        { addr := some 4 }).1 = (some {}, none) ∧
      (runToMoveIt brokenMeta { mode := Mode.ModeReadWrite, metaBase := 0, log := [] }
        { addr := some 4 }).2.metaBase =
        ((brokenMeta (Shard.mk Mode.ModeReadWrite 0 []).metaBase
          (ToMoveItPrm.mk (some 4)).addr).2, [(ToMoveItPrm.mk (some 4)).addr]) ∧
      (runToMoveIt brokenMeta { mode := Mode.ModeReadWrite, metaBase := 0, log := [] }
        { addr := some 4 }).2.log =
        (Shard.mk Mode.ModeReadWrite 0 []).log ++
          (brokenMeta (Shard.mk Mode.ModeReadWrite 0 []).metaBase
            (ToMoveItPrm.mk (some 4)).addr).1.toList :=
  (toMoveIt_mode_gate brokenMeta { mode := Mode.ModeReadWrite, metaBase := 0, log := [] }
    { addr := some 4 }).2.2 rfl

end ShardService

namespace SearchService

theorem iterate_first_success {κ : Type} (g : Address → κ → List Nat → List ID × Option FwdError)
    (c : κ) (key : List Nat) (a : Address) (post : List Address) (ha : (g a c key).2 = none) :
    ∀ (pre : List Address) (st : FwdState (List Address)),
      (∀ b ∈ pre, (g b c key).2 ≠ none) →
        IterateAddresses (forwardCallback (journalled g) c key) (pre ++ a :: post) st =
          { world := st.world ++ pre ++ [a], res := (g a c key).1, firstErr := none } := by
  intro pre
  induction pre with
  | nil =>
      intro st _
      rcases hg : g a c key with ⟨res, err⟩
      rw [hg] at ha
      simp only at ha
      subst ha
      simp [IterateAddresses, forwardCallback, journalled, hg]
  | cons b pre ih =>
      intro st hfail
      rcases hg : g b c key with ⟨res, err⟩
      have hb : (g b c key).2 ≠ none := hfail b (by simp)
      rw [hg] at hb
      cases err with
      | none => exact absurd rfl hb
      | some e =>
          have h1 := ih
            { world := st.world ++ [b]
              res := res
              firstErr := if st.firstErr.isNone then some e else st.firstErr }
            (fun x hx => hfail x (by simp [hx]))
          simpa [IterateAddresses, forwardCallback, journalled, hg] using h1

theorem iterate_all_fail {κ : Type} (g : Address → κ → List Nat → List ID × Option FwdError)
    (c : κ) (key : List Nat) :
    ∀ (group : List Address) (st : FwdState (List Address)),
      (∀ b ∈ group, (g b c key).2 ≠ none) →
        (IterateAddresses (forwardCallback (journalled g) c key) group st).world =
            st.world ++ group ∧
          (IterateAddresses (forwardCallback (journalled g) c key) group st).firstErr =
            (match st.firstErr with
              | some e => some e
              | none => (group.head?).bind (fun b => (g b c key).2)) := by
  intro group
  induction group with
  | nil =>
      intro st _
      cases hst : st.firstErr <;> simp [IterateAddresses, hst]
  | cons b rest ih =>
      intro st hfail
      rcases hg : g b c key with ⟨res, err⟩
      have hb : (g b c key).2 ≠ none := hfail b (by simp)
      rw [hg] at hb
      cases err with
      | none => exact absurd rfl hb
      | some e =>
          obtain ⟨h1, h2⟩ := ih
            { world := st.world ++ [b]
              res := res
              firstErr := if st.firstErr.isNone then some e else st.firstErr }
            (fun x hx => hfail x (by simp [hx]))
          constructor
          · simpa [IterateAddresses, forwardCallback, journalled, hg] using h1
          · cases hst : st.firstErr with
            | none => simpa [IterateAddresses, forwardCallback, journalled, hg, hst] using h2
            | some e0 => simpa [IterateAddresses, forwardCallback, journalled, hg, hst] using h2

/-- C19: for every address group and every per-address function, if `a` is the first
address of the group on which the function succeeds (it fails on every address before
`a`), the forwarder returns the result of the function on `a` with a nil error, and the
function has been called on the addresses up to `a` in order and on none after it. -/
theorem forwarder_first_success {κ : Type}
    (g : Address → κ → List Nat → List ID × Option FwdError) (info : NodeInfo) (c : κ)
    (pre post : List Address) (a : Address)
    (hgroup : info.AddressGroup = pre ++ a :: post)
    (hpre : ∀ b ∈ pre, (g b c info.PublicKey).2 ≠ none)
    (ha : (g a c info.PublicKey).2 = none) :
    groupAddressRequestForwarder (journalled g) info c [] =
      (((g a c info.PublicKey).1, none), pre ++ [a]) := by
  have h := iterate_first_success g c info.PublicKey a post ha pre
    { world := [], res := [], firstErr := none } hpre
  simp [groupAddressRequestForwarder, hgroup, h]

/-- C19 on a group whose third address is the first that answers. -/
theorem forwarder_first_success_witness :
    groupAddressRequestForwarder (journalled sampleFetch)
        { PublicKey := [7], AddressGroup := [3, 4, 12, 5, 13] } () [] =
      (((sampleFetch 12 () (NodeInfo.mk [7] [3, 4, 12, 5, 13]).PublicKey).1, none),
        [3, 4] ++ [12]) :=
  forwarder_first_success sampleFetch { PublicKey := [7], AddressGroup := [3, 4, 12, 5, 13] } ()
    [3, 4] [5, 13] 12 rfl (by decide) rfl

/-- C20: for every address group on all of whose addresses the per-address function fails,
the forwarder calls the function on every address in order; when the group is not empty it
returns the error of the first address tried; for the empty group it returns a nil result
and a nil error without any call. -/
theorem forwarder_all_fail {κ : Type}
    (g : Address → κ → List Nat → List ID × Option FwdError) (info : NodeInfo) (c : κ)
    (hfail : ∀ b ∈ info.AddressGroup, (g b c info.PublicKey).2 ≠ none) :
    (groupAddressRequestForwarder (journalled g) info c []).2 = info.AddressGroup ∧
      (∀ a rest, info.AddressGroup = a :: rest →
        (groupAddressRequestForwarder (journalled g) info c []).1.2 = (g a c info.PublicKey).2 ∧
          (groupAddressRequestForwarder (journalled g) info c []).1.2 ≠ none) ∧
      (info.AddressGroup = [] →
        groupAddressRequestForwarder (journalled g) info c [] = (([], none), [])) := by
  obtain ⟨h1, h2⟩ := iterate_all_fail g c info.PublicKey info.AddressGroup
    { world := [], res := [], firstErr := none } hfail
  refine ⟨?_, ?_, ?_⟩
  · simpa [groupAddressRequestForwarder] using h1
  · intro a rest hg
    have h3 : (groupAddressRequestForwarder (journalled g) info c []).1.2 =
        (g a c info.PublicKey).2 := by
      simpa [groupAddressRequestForwarder, hg] using h2
    exact ⟨h3, by rw [h3]; exact hfail a (by simp [hg])⟩
  · intro hg
    simp [groupAddressRequestForwarder, hg, IterateAddresses]

/-- C20 on a group of three addresses that all fail: the error of address 3 is returned,
not that of address 5. -/
theorem forwarder_all_fail_witness :
    (groupAddressRequestForwarder (journalled sampleFetch)
        { PublicKey := [7], AddressGroup := [3, 4, 5] } () []).2 = [3, 4, 5] ∧
      (groupAddressRequestForwarder (journalled sampleFetch)
        { PublicKey := [7], AddressGroup := [3, 4, 5] } () []).1.2 = some 3 :=
  ⟨(forwarder_all_fail sampleFetch { PublicKey := [7], AddressGroup := [3, 4, 5] } ()
      (by decide)).1,
    ((forwarder_all_fail sampleFetch { PublicKey := [7], AddressGroup := [3, 4, 5] } ()
      (by decide)).2.1 3 [4, 5] rfl).1⟩

end SearchService

namespace ObjectService

/-- C21: for every request whose `GetSessionToken` is nil, `preProcess` returns nil and
consults nothing: neither `allowedSpawn`, nor the owner key verifier, nor a session token
verifier, and the world stays as it was. For a request with a token whose verb
`allowedSpawn` does not allow for the type of the request, it returns errForbiddenSpawn and
`allowedSpawn` is the only thing consulted: the key verifier is not invoked. -/
theorem preProcess_gates {ω : Type} (env : TokenEnv ω) (s : tokenPreProcessor ω)
    (req : serviceRequest) (w : ω) :
    (req.GetSessionToken = none → runPreProcess env s req w = (none, (w, []))) ∧
      (∀ token, req.GetSessionToken = some token →
        (env.allowedSpawn (env.GetVerb token) req.ReqType w).1 = false →
        runPreProcess env s req w =
          (some TokenError.errForbiddenSpawn,
            ((env.allowedSpawn (env.GetVerb token) req.ReqType w).2,
              [PreEvent.spawn (env.GetVerb token) req.ReqType false]))) := by
  constructor
  · intro hnil
    simp [runPreProcess, tokenPreProcessor.preProcess, hnil]
  · intro token htok hspawn
    rcases hc : env.allowedSpawn (env.GetVerb token) req.ReqType w with ⟨r, w1⟩
    rw [hc] at hspawn
    simp only at hspawn
    subst hspawn
    simp [runPreProcess, tokenPreProcessor.preProcess, htok, observeEnv, hc]

/-- C21 on a request without token and on a request of type 4 with a token of verb 3. -/
theorem preProcess_gates_witness :
    runPreProcess sampleEnv samplePreProcessor { GetSessionToken := none, ReqType := 4 } () =
        (none, ((), [])) ∧
      runPreProcess sampleEnv samplePreProcessor
        { GetSessionToken := some { CreationEpoch := 1, ExpirationEpoch := 2, payload := 3 }
          ReqType := 4 } () =
        (some TokenError.errForbiddenSpawn,
          ((sampleEnv.allowedSpawn
              (sampleEnv.GetVerb { CreationEpoch := 1, ExpirationEpoch := 2, payload := 3 })
              (serviceRequest.mk
                (some { CreationEpoch := 1, ExpirationEpoch := 2, payload := 3 }) 4).ReqType ()).2,
            [PreEvent.spawn
              (sampleEnv.GetVerb { CreationEpoch := 1, ExpirationEpoch := 2, payload := 3 })
              (serviceRequest.mk
                (some { CreationEpoch := 1, ExpirationEpoch := 2, payload := 3 }) 4).ReqType
              false])) :=
  ⟨(preProcess_gates sampleEnv samplePreProcessor { GetSessionToken := none, ReqType := 4 } ()).1
      rfl,
    (preProcess_gates sampleEnv samplePreProcessor
      { GetSessionToken := some { CreationEpoch := 1, ExpirationEpoch := 2, payload := 3 }
        ReqType := 4 } ()).2
      { CreationEpoch := 1, ExpirationEpoch := 2, payload := 3 } rfl rfl⟩

end ObjectService

namespace Muxer

theorem or_one_eq (x : Nat) : x ||| 1 = 2 * (x / 2) + 1 := by
  have h1 : 2 ^ 1 * (x / 2) + 1 = 2 ^ 1 * (x / 2) ||| 1 :=
    Nat.mul_add_lt_is_or (by decide) (x / 2)
  rcases Nat.mod_two_eq_zero_or_one x with h | h
  · have hx : x = 2 ^ 1 * (x / 2) := by omega
    calc x ||| 1 = 2 ^ 1 * (x / 2) ||| 1 := by rw [← hx]
      _ = 2 * (x / 2) + 1 := by rw [← h1]; omega
  · have hx : x = 2 ^ 1 * (x / 2) ||| 1 := by rw [← h1]; omega
    calc x ||| 1 = (2 ^ 1 * (x / 2) ||| 1) ||| 1 := by rw [← hx]
      _ = 2 ^ 1 * (x / 2) ||| 1 := by rw [Nat.or_assoc, Nat.or_self]
      _ = 2 * (x / 2) + 1 := by rw [← h1]; omega

theorem lenAux_le : ∀ (n x k : Nat), x < 2 ^ n → (lenAux n x ≤ k ↔ x < 2 ^ k) := by
  intro n
  induction n with
  | zero =>
      intro x k hx
      have h0 : x = 0 := by simpa using hx
      subst h0
      simp [lenAux]
  | succ n ih =>
      intro x k hx
      by_cases h0 : x = 0
      · subst h0
        simp [lenAux]
      · cases k with
        | zero =>
            simp only [lenAux, h0, if_false, pow_zero]
            omega
        | succ k =>
            have hx2 : x / 2 < 2 ^ n := by
              rw [Nat.div_lt_iff_lt_mul (by decide)]
              rw [pow_succ] at hx
              exact hx
            have := ih (x / 2) k hx2
            simp only [lenAux, h0, if_false, Nat.add_le_add_iff_right, this]
            rw [Nat.div_lt_iff_lt_mul (by decide), pow_succ]

theorem sovMuxerTest_le (x k : Nat) (hx : x < 2 ^ 64) (hk : 1 ≤ k) :
    sovMuxerTest x ≤ k ↔ x < 128 ^ k := by
  have hor : x ||| 1 < 2 ^ 64 := Nat.or_lt_two_pow hx (by decide)
  have h1 := lenAux_le 64 (x ||| 1) (7 * k) hor
  have hpow : (128 : Nat) ^ k = 2 ^ (7 * k) := by
    rw [pow_mul]
    norm_num
  have h2 : x ||| 1 < 2 ^ (7 * k) ↔ x < 2 ^ (7 * k) := by
    rw [or_one_eq]
    obtain ⟨j, hj⟩ : ∃ j, 7 * k = j + 1 := ⟨7 * k - 1, by omega⟩
    rw [hj, pow_succ]
    omega
  rw [hpow, ← h2, ← h1]
  simp only [sovMuxerTest, Len64]
  omega

theorem varintBytes_ge (n v : Nat) (h : v ≥ 128) :
    varintBytes (n + 1) v = (v % 128 + 128) :: varintBytes n (v / 128) := by
  rw [varintBytes, if_pos h]

theorem varintBytes_lt (n v : Nat) (h : v < 128) : varintBytes (n + 1) v = [v] := by
  rw [varintBytes, if_neg (by omega)]

theorem varintBytes_length_pos (n v : Nat) : 1 ≤ (varintBytes (n + 1) v).length := by
  by_cases h : v ≥ 128
  · rw [varintBytes_ge n v h]; simp
  · rw [varintBytes_lt n v (by omega)]; simp

theorem varintBytes_length_le : ∀ (n v : Nat), (varintBytes n v).length ≤ n := by
  intro n
  induction n with
  | zero => intro v; simp [varintBytes]
  | succ n ih =>
      intro v
      by_cases h : v ≥ 128
      · have := ih (v / 128)
        rw [varintBytes_ge n v h, List.length_cons]
        omega
      · rw [varintBytes_lt n v (by omega)]; simp

theorem varintBytes_length_iff : ∀ (n v k : Nat), v < 128 ^ (n + 1) → 1 ≤ k →
    ((varintBytes (n + 1) v).length ≤ k ↔ v < 128 ^ k) := by
  intro n
  induction n with
  | zero =>
      intro v k hv hk
      have hv2 : v < 128 := by simpa using hv
      have h2 : 128 ^ 1 ≤ 128 ^ k := Nat.pow_le_pow_right (by decide) hk
      rw [varintBytes_lt 0 v hv2, List.length_singleton]
      constructor
      · intro _; omega
      · intro _; exact hk
  | succ n ih =>
      intro v k hv hk
      by_cases h : v ≥ 128
      · have hv2 : v / 128 < 128 ^ (n + 1) := by
          rw [Nat.div_lt_iff_lt_mul (by decide)]
          rw [pow_succ] at hv
          exact hv
        have hpos := varintBytes_length_pos n (v / 128)
        rw [varintBytes_ge (n + 1) v h, List.length_cons]
        cases k with
        | zero => omega
        | succ k =>
            cases k with
            | zero =>
                constructor
                · intro hle; omega
                · intro hlt
                  have : v < 128 := by simpa using hlt
                  omega
            | succ k =>
                have := ih (v / 128) (k + 1) hv2 (by omega)
                rw [Nat.add_le_add_iff_right, this, Nat.div_lt_iff_lt_mul (by decide), ← pow_succ]
      · have h2 : 128 ^ 1 ≤ 128 ^ k := Nat.pow_le_pow_right (by decide) hk
        rw [varintBytes_lt (n + 1) v (by omega), List.length_singleton]
        constructor
        · intro _; omega
        · intro _; exact hk

theorem lenAux_pos (n y : Nat) (hy : y ≠ 0) : 1 ≤ lenAux (n + 1) y := by
  rw [lenAux, if_neg hy]
  omega

theorem sovMuxerTest_eq (v : Nat) (hv : v < 2 ^ 64) :
    sovMuxerTest v = (varintBytes 10 v).length := by
  have hv2 : v < 128 ^ (9 + 1) := by
    have : (2 : Nat) ^ 64 ≤ 128 ^ (9 + 1) := by norm_num
    omega
  have hb := varintBytes_length_pos 9 v
  have ha : 1 ≤ sovMuxerTest v := by
    have hl : 1 ≤ lenAux (63 + 1) (v ||| 1) := lenAux_pos 63 (v ||| 1) (by rw [or_one_eq]; omega)
    have hs : sovMuxerTest v = (lenAux (63 + 1) (v ||| 1) + 6) / 7 := rfl
    rw [hs]
    omega
  have h1 := sovMuxerTest_le v (varintBytes 10 v).length hv hb
  have h2 := varintBytes_length_iff 9 v (varintBytes 10 v).length hv2 hb
  have h3 := sovMuxerTest_le v (sovMuxerTest v) hv ha
  have h4 := varintBytes_length_iff 9 v (sovMuxerTest v) hv2 ha
  have h5 : sovMuxerTest v ≤ (varintBytes 10 v).length := h1.mpr (h2.mp (le_refl _))
  have h6 : (varintBytes 10 v).length ≤ sovMuxerTest v := h4.mpr (h3.mp (le_refl _))
  omega

theorem low_bits_flagged (v : Nat) : (v &&& 0x7f ||| 0x80) % 256 = v % 128 + 128 := by
  have h1 : v &&& 0x7f = v % 128 := by
    have := Nat.and_pow_two_sub_one_eq_mod v 7
    simpa using this
  have h2 : v % 128 < 2 ^ 7 := by
    have := Nat.mod_lt v (show 0 < 128 by decide)
    simpa using this
  have h3 : 2 ^ 7 * 1 + v % 128 = 2 ^ 7 * 1 ||| v % 128 := Nat.mul_add_lt_is_or h2 1
  have h4 : v % 128 ||| 0x80 = v % 128 + 128 := by
    have h5 : 2 ^ 7 * 1 ||| v % 128 = 0x80 ||| v % 128 := rfl
    rw [Nat.or_comm, ← h5, ← h3]
    omega
  rw [h1, h4]
  omega

theorem low_bits (b : Nat) : b &&& 0x7F = b % 128 := by
  have := Nat.and_pow_two_sub_one_eq_mod b 7
  simpa using this

theorem set_middle (A B : List Nat) (h x : Nat) :
    (A ++ h :: B).set A.length x = A ++ x :: B := by
  induction A with
  | nil => simp
  | cons a A ih => simp [ih]

theorem encodeVarintLoop_writes : ∀ (n v : Nat) (A H B : List Nat), v < 128 ^ (n + 1) →
    H.length = (varintBytes (n + 1) v).length →
    encodeVarintLoop (n + 1) (A ++ H ++ B) A.length v = Res.ok (A ++ varintBytes (n + 1) v ++ B) := by
  intro n
  induction n with
  | zero =>
      intro v A H B hv hH
      have hv2 : v < 128 := by simpa using hv
      rw [varintBytes_lt 0 v hv2] at hH ⊢
      obtain ⟨h, rfl⟩ : ∃ h, H = [h] := List.length_eq_one.mp hH
      have h1 : ¬ v ≥ 1 <<< 7 := by
        have : (1 : Nat) <<< 7 = 128 := by decide
        omega
      have h2 : v % 256 = v := by omega
      simp only [encodeVarintLoop, h1, if_false, List.append_assoc, List.singleton_append,
        set_middle, h2]
      simp
  | succ n ih =>
      intro v A H B hv hH
      by_cases h : v ≥ 128
      · rw [varintBytes_ge (n + 1) v h] at hH ⊢
        rw [List.length_cons] at hH
        obtain ⟨x, H1, rfl⟩ : ∃ x H1, H = x :: H1 := by
          cases H with
          | nil => simp at hH
          | cons x H1 => exact ⟨x, H1, rfl⟩
        have hv2 : v / 128 < 128 ^ (n + 1) := by
          rw [Nat.div_lt_iff_lt_mul (by decide)]
          rw [pow_succ] at hv
          exact hv
        have h1 : v ≥ 1 <<< 7 := by
          have : (1 : Nat) <<< 7 = 128 := by decide
          omega
        have hshift : v >>> 7 = v / 128 := by
          rw [Nat.shiftRight_eq_div_pow]
        have hrec := ih (v / 128) (A ++ [v % 128 + 128]) H1 B hv2 (by simpa using hH)
        have hlen : A.length < (A ++ (x :: H1 ++ B)).length := by simp
        have hset : (A ++ (x :: H1 ++ B)).set A.length (v % 128 + 128) =
            A ++ [v % 128 + 128] ++ H1 ++ B := by
          simp [set_middle A (H1 ++ B) x (v % 128 + 128)]
        rw [encodeVarintLoop, if_pos h1, List.append_assoc, if_pos hlen, low_bits_flagged, hshift,
          hset]
        have hl2 : A.length + 1 = (A ++ [v % 128 + 128]).length := by simp
        rw [hl2, hrec]
        simp
      · have hv2 : v < 128 := by omega
        rw [varintBytes_lt (n + 1) v hv2] at hH ⊢
        obtain ⟨h, rfl⟩ : ∃ h, H = [h] := List.length_eq_one.mp hH
        have h1 : ¬ v ≥ 1 <<< 7 := by
          have : (1 : Nat) <<< 7 = 128 := by decide
          omega
        have h2 : v % 256 = v := by omega
        rw [encodeVarintLoop, if_neg h1]
        simp only [List.append_assoc, List.singleton_append, set_middle, h2]
        simp

theorem or_shifted (acc d s : Nat) (hacc : acc < 2 ^ s) (hfit : d * 2 ^ s < 2 ^ 64) :
    acc ||| ((d <<< s) % 2 ^ 64) = acc + d * 2 ^ s := by
  rw [Nat.shiftLeft_eq, Nat.mod_eq_of_lt hfit, Nat.or_comm, Nat.mul_comm d (2 ^ s),
    ← Nat.mul_add_lt_is_or hacc d]
  omega

theorem getD_middle (A B : List Nat) (b : Nat) : (A ++ b :: B).getD A.length 0 = b := by
  induction A with
  | nil => simp
  | cons a A ih => simpa using ih

theorem decodeVarint_reads : ∀ (n e u s acc : Nat) (pre post : List Nat), u < 128 ^ (n + 1) →
    s < 64 → acc < 2 ^ s → acc + u * 2 ^ s < 2 ^ 64 →
    decodeVarint (pre ++ varintBytes (n + 1) u ++ post) (n + 1 + e) s pre.length acc =
      Res.ok (acc + u * 2 ^ s, pre.length + (varintBytes (n + 1) u).length) := by
  intro n
  induction n with
  | zero =>
      intro e u s acc pre post hu hs hacc hfit
      have hu2 : u < 128 := by simpa using hu
      rw [varintBytes_lt 0 u hu2]
      have h1 : ¬ s ≥ 64 := by omega
      have h2 : ¬ pre.length ≥ (pre ++ [u] ++ post).length := by simp
      have h3 : (pre ++ [u] ++ post).getD pre.length 0 = u := by
        simpa using getD_middle pre post u
      have h4 : u < 0x80 := hu2
      have h5 : u &&& 0x7F = u := by rw [low_bits]; omega
      have h6 : u * 2 ^ s < 2 ^ 64 := by omega
      have he : 0 + 1 + e = e + 1 := by omega
      rw [he, decodeVarint, if_neg h1, if_neg h2, h3, if_pos h4, h5, or_shifted acc u s hacc h6]
      simp
  | succ n ih =>
      intro e u s acc pre post hu hs hacc hfit
      have h1 : ¬ s ≥ 64 := by omega
      have he : n + 1 + 1 + e = (n + 1 + e) + 1 := by omega
      by_cases h : u ≥ 128
      · rw [varintBytes_ge (n + 1) u h]
        have h2 : ¬ pre.length ≥
            (pre ++ (u % 128 + 128) :: varintBytes (n + 1) (u / 128) ++ post).length := by simp
        have h3 : (pre ++ (u % 128 + 128) :: varintBytes (n + 1) (u / 128) ++ post).getD
            pre.length 0 = u % 128 + 128 := by
          simpa using getD_middle pre (varintBytes (n + 1) (u / 128) ++ post) (u % 128 + 128)
        have h4 : ¬ u % 128 + 128 < 0x80 := by omega
        have h5 : (u % 128 + 128) &&& 0x7F = u % 128 := by rw [low_bits]; omega
        have hsplit : u * 2 ^ s = u % 128 * 2 ^ s + u / 128 * 2 ^ (s + 7) := by
          have hdm := Nat.mod_add_div u 128
          calc u * 2 ^ s = (u % 128 + 128 * (u / 128)) * 2 ^ s := by rw [hdm]
            _ = u % 128 * 2 ^ s + u / 128 * 2 ^ (s + 7) := by rw [pow_add]; ring
        have hlow : u % 128 * 2 ^ s ≤ 127 * 2 ^ s :=
          Nat.mul_le_mul_right _ (by omega)
        have hhigh : 2 ^ (s + 7) ≤ u / 128 * 2 ^ (s + 7) :=
          Nat.le_mul_of_pos_left _ (by omega)
        have hp7 : 2 ^ (s + 7) = 128 * 2 ^ s := by rw [pow_add]; ring
        have h6 : u % 128 * 2 ^ s < 2 ^ 64 := by omega
        have hs7 : s + 7 < 64 := by
          have hlt : 2 ^ (s + 7) < 2 ^ 64 := by omega
          exact (Nat.pow_lt_pow_iff_right (by decide)).mp hlt
        have hu2 : u / 128 < 128 ^ (n + 1) := by
          rw [Nat.div_lt_iff_lt_mul (by decide)]
          rw [pow_succ] at hu
          exact hu
        have hrec := ih e (u / 128) (s + 7) (acc + u % 128 * 2 ^ s) (pre ++ [u % 128 + 128]) post
          hu2 hs7 (by omega) (by omega)
        rw [he, decodeVarint, if_neg h1, if_neg h2, h3, if_neg h4, h5,
          or_shifted acc (u % 128) s hacc h6]
        have hl2 : pre.length + 1 = (pre ++ [u % 128 + 128]).length := by simp
        have hbuf : pre ++ (u % 128 + 128) :: varintBytes (n + 1) (u / 128) ++ post =
            pre ++ [u % 128 + 128] ++ varintBytes (n + 1) (u / 128) ++ post := by simp
        have e1 : acc + u % 128 * 2 ^ s + u / 128 * 2 ^ (s + 7) = acc + u * 2 ^ s := by omega
        have e2 : (pre ++ [u % 128 + 128]).length + (varintBytes (n + 1) (u / 128)).length =
            pre.length + ((u % 128 + 128) :: varintBytes (n + 1) (u / 128)).length := by
          simp only [List.length_append, List.length_singleton, List.length_cons, List.length_nil]
          omega
        rw [hl2, hbuf, hrec, e1, e2]
      · have hu2 : u < 128 := by omega
        rw [varintBytes_lt (n + 1) u hu2]
        have h2 : ¬ pre.length ≥ (pre ++ [u] ++ post).length := by simp
        have h3 : (pre ++ [u] ++ post).getD pre.length 0 = u := by
          simpa using getD_middle pre post u
        have h4 : u < 0x80 := hu2
        have h5 : u &&& 0x7F = u := by rw [low_bits]; omega
        have h6 : u * 2 ^ s < 2 ^ 64 := by omega
        rw [he, decodeVarint, if_neg h1, if_neg h2, h3, if_pos h4, h5, or_shifted acc u s hacc h6]
        simp

theorem copyAt_end (n : Nat) : copyAt (List.replicate n 0) n [] = List.replicate n 0 := by
  simp [copyAt]

theorem copyAt_tail (k : Nat) (N : List Nat) :
    copyAt (List.replicate (k + N.length) 0) k N = List.replicate k 0 ++ N := by
  simp [copyAt, List.take_replicate, List.drop_replicate]

theorem encodeVarintMuxerTest_writes (v : Nat) (hv : v < 2 ^ 64) (N : List Nat) :
    encodeVarintMuxerTest ([0] ++ List.replicate (varintBytes 10 v).length 0 ++ N)
        (1 + (varintBytes 10 v).length) v =
      Res.ok ([0] ++ varintBytes 10 v ++ N, 1) := by
  have hsov := sovMuxerTest_eq v hv
  have hv2 : v < 128 ^ (9 + 1) := by
    have : (2 : Nat) ^ 64 ≤ 128 ^ (9 + 1) := by norm_num
    omega
  have hloop := encodeVarintLoop_writes 9 v [0] (List.replicate (varintBytes 10 v).length 0) N hv2
    (by simp)
  have hoff : 1 + (varintBytes 10 v).length - (varintBytes 10 v).length = [0].length := by
    simp
  rw [encodeVarintMuxerTest, hsov, if_pos (by omega), hoff, hloop]
  rfl

theorem marshal_named (m : HelloRequest) (hu : m.XXX_unrecognized = [])
    (hn : 0 < m.Name.length) (hl : m.Name.length < 2 ^ 64) :
    m.Size = 1 + (varintBytes 10 m.Name.length).length + m.Name.length ∧
      m.Marshal = Res.ok (10 :: varintBytes 10 m.Name.length ++ m.Name) := by
  obtain ⟨N, U⟩ := m
  simp only at hu hn hl
  subst hu
  have hsov := sovMuxerTest_eq N.length hl
  have hsize : HelloRequest.Size ⟨N, []⟩ = 1 + (varintBytes 10 N.length).length + N.length := by
    simp only [HelloRequest.Size, hn, if_true, hsov, List.length_nil]
    omega
  refine ⟨hsize, ?_⟩
  have hcopy := copyAt_tail (1 + (varintBytes 10 N.length).length) N
  have hrep : List.replicate (1 + (varintBytes 10 N.length).length) 0 =
      [0] ++ List.replicate (varintBytes 10 N.length).length 0 := by
    rw [Nat.add_comm, List.replicate_succ]
    rfl
  have henc := encodeVarintMuxerTest_writes N.length hl N
  have hsub : 1 + (varintBytes 10 N.length).length + N.length - N.length =
      1 + (varintBytes 10 N.length).length := by omega
  have hle : N.length ≤ 1 + (varintBytes 10 N.length).length + N.length := by omega
  simp only [HelloRequest.Marshal, HelloRequest.MarshalToSizedBuffer, hsize, List.length_nil,
    List.length_replicate, Nat.zero_le, if_true, Nat.sub_zero, copyAt_end, hn, hle, hsub, hcopy,
    hrep, henc]
  have hfin : 1 + (varintBytes 10 N.length).length + N.length ≤
      (varintBytes 10 N.length).length + N.length + 1 := by omega
  have htake : List.take (1 + (varintBytes 10 N.length).length + N.length)
      (10 :: (varintBytes 10 N.length ++ N)) = 10 :: (varintBytes 10 N.length ++ N) := by
    apply List.take_of_length_le
    simp only [List.length_cons, List.length_append]
    omega
  simp [hfin, htake]

theorem unmarshalLoop_end (skip : Skip) (dAtA : List Nat) (n : Nat) (m : HelloRequest) :
    unmarshalLoop skip dAtA (n + 1) dAtA.length m = Res.ok m := by
  rw [unmarshalLoop, if_neg (Nat.lt_irrefl _), if_neg (Nat.lt_irrefl _)]

theorem unmarshalLoop_named (skip : Skip) (m0 : HelloRequest) (N : List Nat) (n : Nat)
    (hl : N.length + 11 < 2 ^ 63) :
    unmarshalLoop skip (10 :: varintBytes 10 N.length ++ N) (n + 1 + 1) 0 m0 =
      Res.ok { Name := N, XXX_unrecognized := m0.XXX_unrecognized } := by
  have hvl := varintBytes_length_le 10 N.length
  have htag : decodeVarint (10 :: varintBytes 10 N.length ++ N) 11 0 0 0 = Res.ok (10, 1) := by
    have h := decodeVarint_reads 0 10 10 0 0 [] (varintBytes 10 N.length ++ N)
      (by norm_num) (by norm_num) (by norm_num) (by norm_num)
    have hb : varintBytes (0 + 1) 10 = [10] := varintBytes_lt 0 10 (by norm_num)
    rw [hb] at h
    simpa using h
  have hlenv : decodeVarint (10 :: varintBytes 10 N.length ++ N) 11 0 1 0 =
      Res.ok (N.length, 1 + (varintBytes 10 N.length).length) := by
    have hN : N.length < 128 ^ (9 + 1) := by
      have : (2 : Nat) ^ 63 ≤ 128 ^ (9 + 1) := by norm_num
      omega
    have h := decodeVarint_reads 9 1 N.length 0 0 [10] N hN (by norm_num) (by norm_num)
      (by
        have : (2 : Nat) ^ 63 ≤ 2 ^ 64 := by norm_num
        omega)
    simpa using h
  have hw1 : ¬ ((10 : Nat) &&& 0x7 = 4) := by decide
  have hw2 : (10 : Nat) &&& 0x7 = 2 := by decide
  have hshift : (10 : Nat) >>> 3 = 1 := by decide
  have hf : toInt32 1 = 1 := by
    simp [toInt32]
  have hpos : 0 < (10 :: varintBytes 10 N.length ++ N).length := by simp
  have hlen : (10 :: varintBytes 10 N.length ++ N).length =
      1 + (varintBytes 10 N.length).length + N.length := by
    simp only [List.length_cons, List.length_append]
    omega
  have h63 : ¬ N.length ≥ 2 ^ 63 := by omega
  have h63b : ¬ 1 + (varintBytes 10 N.length).length + N.length ≥ 2 ^ 63 := by omega
  have hfit : ¬ 1 + (varintBytes 10 N.length).length + N.length >
      (10 :: varintBytes 10 N.length ++ N).length := by omega
  have hslice : ((10 :: varintBytes 10 N.length ++ N).drop
      (1 + (varintBytes 10 N.length).length)).take N.length = N := by
    have hd : (10 :: varintBytes 10 N.length ++ N).drop
        (1 + (varintBytes 10 N.length).length) = N := by
      exact List.drop_left' (by simp only [List.length_cons]; omega)
    rw [hd, List.take_length]
  rw [unmarshalLoop, if_pos hpos, htag]
  simp only [hw1, hw2, hshift, hf, if_false, if_true, hlenv, h63, h63b, hfit, hslice,
    le_refl, ne_eq, not_true_eq_false]
  have hidx : 1 + (varintBytes 10 N.length).length + N.length =
      (10 :: varintBytes 10 N.length ++ N).length := hlen.symm
  norm_num
  rw [hidx]
  exact unmarshalLoop_end skip _ n _

theorem unmarshal_named (skip : Skip) (m0 : HelloRequest) (N : List Nat)
    (hl : N.length + 11 < 2 ^ 63) :
    HelloRequest.Unmarshal skip m0 (10 :: varintBytes 10 N.length ++ N) =
      Res.ok { Name := N, XXX_unrecognized := m0.XXX_unrecognized } := by
  have hlen : (10 :: varintBytes 10 N.length ++ N).length + 1 =
      (varintBytes 10 N.length ++ N).length + 1 + 1 := by simp
  rw [HelloRequest.Unmarshal, hlen]
  exact unmarshalLoop_named skip m0 N _ hl

/-- C22: for every `HelloRequest` with no unrecognized bytes and a `Name` of any bytes (of
a length that a Go string in memory has, 11 below 2^63), `Marshal` succeeds with exactly
`Size` bytes, and `Unmarshal` of these bytes into a fresh message returns no error and
gives the same `Name` and no unrecognized bytes, whatever `skipMuxerTest` computes; the
empty `Name` is encoded as no byte at all. -/
theorem hello_round_trip (skip : Skip) (m : HelloRequest) (hu : m.XXX_unrecognized = [])
    (hl : m.Name.length + 11 < 2 ^ 63) :
    ∃ dAtA, m.Marshal = Res.ok dAtA ∧ dAtA.length = m.Size ∧
      HelloRequest.Unmarshal skip { Name := [], XXX_unrecognized := [] } dAtA =
        Res.ok { Name := m.Name, XXX_unrecognized := [] } ∧
      (m.Name = [] → dAtA = []) := by
  by_cases hn : 0 < m.Name.length
  · have h64 : m.Name.length < 2 ^ 64 := by
      have : (2 : Nat) ^ 63 ≤ 2 ^ 64 := by norm_num
      omega
    obtain ⟨hsize, hmar⟩ := marshal_named m hu hn h64
    refine ⟨10 :: varintBytes 10 m.Name.length ++ m.Name, hmar, ?_, ?_, ?_⟩
    · rw [hsize]
      simp only [List.length_cons, List.length_append]
      omega
    · exact unmarshal_named skip { Name := [], XXX_unrecognized := [] } m.Name hl
    · intro hnil
      rw [hnil] at hn
      simp at hn
  · have hnil : m.Name = [] := List.length_eq_zero.mp (by omega)
    obtain ⟨N, U⟩ := m
    simp only at hu hnil
    subst hu
    subst hnil
    refine ⟨[], rfl, rfl, ?_, fun _ => rfl⟩
    exact unmarshalLoop_end skip [] 0 _

/-- C22 on the name with the bytes 104 and 105: four bytes on the wire, and back. -/
theorem hello_round_trip_witness :
    HelloRequest.Marshal { Name := [104, 105], XXX_unrecognized := [] } =
        Res.ok [10, 2, 104, 105] ∧
      ∃ dAtA, HelloRequest.Marshal { Name := [104, 105], XXX_unrecognized := [] } = Res.ok dAtA ∧
        dAtA.length = HelloRequest.Size { Name := [104, 105], XXX_unrecognized := [] } ∧
        HelloRequest.Unmarshal noSkip { Name := [], XXX_unrecognized := [] } dAtA =
          Res.ok { Name := (HelloRequest.mk [104, 105] []).Name, XXX_unrecognized := [] } ∧
        ((HelloRequest.mk [104, 105] []).Name = [] → dAtA = []) :=
  ⟨by decide,
    hello_round_trip noSkip { Name := [104, 105], XXX_unrecognized := [] } rfl (by decide)⟩

end Muxer
